import Mathlib

/-!
Verification of the Fragment Manager (src/meta/src/manager/catalog/fragment.rs)
of a distributed streaming database.

The in-memory catalog is a map from job (table) id to TableFragments;
public operations stage edits against that map through a transaction
helper and commit them atomically to a meta store.  We shallowly embed
the data model and the manager operations as executable Lean functions
on association lists, model the meta-store commit with an explicit
success flag, and model Rust panics (assert!/unwrap) as a distinguished
error outcome.
-/

set_option autoImplicit false

namespace FragmentSpec

/-! ## Association-list maps

Rust's BTreeMap/HashMap are embedded as association lists with
insertion-order iteration; `alinsert` replaces an existing binding in
place, so a map built only through `alinsert` has pairwise distinct
keys. -/

def alget {α : Type} : List (Nat × α) → Nat → Option α
  | [], _ => none
  | p :: rest, key => if p.1 = key then some p.2 else alget rest key

def alinsert {α : Type} : List (Nat × α) → Nat → α → List (Nat × α)
  | [], k, v => [(k, v)]
  | p :: rest, k, v =>
    if p.1 = k then (k, v) :: rest else p :: alinsert rest k v

def alerase {α : Type} (m : List (Nat × α)) (k : Nat) : List (Nat × α) :=
  m.filter (fun p => p.1 ≠ k)

def alkeys {α : Type} (m : List (Nat × α)) : List Nat :=
  m.map (fun p => p.1)

def alHasKey {α : Type} (m : List (Nat × α)) (k : Nat) : Bool :=
  (alget m k).isSome

/-! ## Data model

Translated from the protobuf/model types used by fragment.rs
(`StreamActor`, `Dispatcher`, `Fragment`, `ActorStatus`,
`TableFragments`).  Stream-node subtrees are reduced to the shape the
manager inspects: a node is an optional Merge payload
(upstream fragment id, upstream actor ids) plus child inputs. -/

structure ParallelUnit where
  id : Nat
  worker_id : Nat
  deriving DecidableEq

/-- `ActorMapping`: run-length compressed partition → actor id map. -/
structure ActorMapping where
  original_indices : List Nat
  data : List Nat
  deriving DecidableEq

/-- `ParallelUnitMapping`: run-length compressed partition → parallel unit id map. -/
structure ParallelUnitMapping where
  fragment_id : Nat
  original_indices : List Nat
  data : List Nat
  deriving DecidableEq

structure Dispatcher where
  dispatcher_id : Nat
  hash_mapping : Option ActorMapping
  downstream_actor_id : List Nat
  deriving DecidableEq

inductive StreamNode where
  | node (merge : Option (Nat × List Nat)) (input : List StreamNode)

mutual

def StreamNode.decEq : (a b : StreamNode) → Decidable (a = b)
  | .node m1 i1, .node m2 i2 =>
    match inferInstanceAs (Decidable (m1 = m2)) with
    | Decidable.isFalse h => Decidable.isFalse (by intro hh; cases hh; exact h rfl)
    | Decidable.isTrue h1 =>
      match StreamNode.decEqList i1 i2 with
      | Decidable.isTrue h2 => Decidable.isTrue (by rw [h1, h2])
      | Decidable.isFalse h => Decidable.isFalse (by intro hh; cases hh; exact h rfl)

def StreamNode.decEqList : (a b : List StreamNode) → Decidable (a = b)
  | [], [] => Decidable.isTrue rfl
  | [], _ :: _ => Decidable.isFalse (by intro hh; cases hh)
  | _ :: _, [] => Decidable.isFalse (by intro hh; cases hh)
  | x :: xs, y :: ys =>
    match StreamNode.decEq x y, StreamNode.decEqList xs ys with
    | Decidable.isTrue h1, Decidable.isTrue h2 => Decidable.isTrue (by rw [h1, h2])
    | Decidable.isFalse h, _ =>
      Decidable.isFalse (by intro hh; injection hh; contradiction)
    | _, Decidable.isFalse h =>
      Decidable.isFalse (by intro hh; injection hh; contradiction)

end

instance : DecidableEq StreamNode := StreamNode.decEq

structure StreamActor where
  actor_id : Nat
  nodes : Option StreamNode
  dispatcher : List Dispatcher
  upstream_actor_id : List Nat
  vnode_bitmap : Option (List Bool)
  deriving DecidableEq

inductive ActorState where
  | inactive
  | running
  deriving DecidableEq

structure ActorStatus where
  state : ActorState
  parallel_unit : Option ParallelUnit
  deriving DecidableEq

inductive FragmentType where
  | source
  | sink
  | chain
  | others
  deriving DecidableEq

structure Fragment where
  fragment_id : Nat
  fragment_type : FragmentType
  actors : List StreamActor
  vnode_mapping : Option ParallelUnitMapping
  state_table_ids : List Nat
  upstream_table_ids : List Nat
  deriving DecidableEq

inductive JobState where
  | creating
  | created
  deriving DecidableEq

structure TableFragments where
  table_id : Nat
  state : JobState
  fragments : List (Nat × Fragment)
  actor_status : List (Nat × ActorStatus)
  actor_splits : List (Nat × List Nat)
  deriving DecidableEq

/-- The manager's in-memory map, job id → TableFragments. -/
abbrev FMap : Type := List (Nat × TableFragments)

/-! ## Derived queries on TableFragments -/

/-- Modelled from the spec: `TableFragments::chain_actor_ids` is a flat id
projection — the ids of the actors of Chain-typed fragments (the method
body lives in the model module, outside src/). -/
def TableFragments.chain_actor_ids (tf : TableFragments) : List Nat :=
  (tf.fragments.filter (fun p => p.2.fragment_type = FragmentType.chain)).flatMap
    (fun p => p.2.actors.map (fun a => a.actor_id))

/-- Modelled from the spec: `TableFragments::dependent_table_ids` is "the set
of upstream jobs feeding Chain fragments"; the source derives it from Chain
stream nodes (outside src/), here each fragment records its upstream jobs in
`upstream_table_ids`. -/
def TableFragments.dependent_table_ids (tf : TableFragments) : List Nat :=
  tf.fragments.flatMap (fun p => p.2.upstream_table_ids)

/-- Modelled from the spec: `TableFragments::update_actors_state(s)` bulk-sets
the lifecycle state of every actor. -/
def TableFragments.update_actors_state (tf : TableFragments) (s : ActorState) :
    TableFragments :=
  { tf with actor_status :=
      tf.actor_status.map (fun p => (p.1, { p.2 with state := s })) }

/-- A split assignment: fragment id → (actor id → splits). -/
abbrev SplitAssignment : Type := List (Nat × List (Nat × List Nat))

/-- Modelled from the spec: `set_actor_splits_by_split_assignment(A)` replaces
the job's actor-split map with the flattening of `A`. -/
def TableFragments.set_actor_splits_by_split_assignment
    (tf : TableFragments) (a : SplitAssignment) : TableFragments :=
  { tf with actor_splits := a.flatMap (fun p => p.2) }

/-- Modelled from the spec: `update_vnode_mapping(M)` rewrites every
fragment's vnode mapping by substituting parallel-unit ids per `M`,
treating absent entries as identity. -/
def TableFragments.update_vnode_mapping (tf : TableFragments)
    (m : List (Nat × ParallelUnit)) : TableFragments :=
  { tf with fragments := tf.fragments.map (fun p =>
      (p.1, { p.2 with vnode_mapping := p.2.vnode_mapping.map (fun vm =>
        { vm with data := vm.data.map (fun pu =>
            match alget m pu with
            | some npu => npu.id
            | none => pu) }) })) }

/-! ## Errors, notifications, and the staged transaction

Rust panics (`assert!`, `unwrap`, `expect`) are modelled as the
distinguished outcome `MetaErr.panicked`; returned `MetaResult` errors
keep their own constructors.  `illegalState` and `noCapacity` are part
of the error taxonomy of the spec (§7) and exist so that theorems can
state whether the code ever produces them. -/

inductive MetaErr where
  | notFound (id : Nat)
  | alreadyExists (id : Nat)
  | invalidUpdate
  | illegalState
  | noCapacity (worker : Nat)
  | storeFailure
  | panicked
  deriving DecidableEq

inductive Operation where
  | add
  | update
  | delete
  deriving DecidableEq

structure Notif where
  op : Operation
  mapping : ParallelUnitMapping
  deriving DecidableEq

/-- Modelled from the spec (§4.1): `BTreeMapTransaction` wraps the live map
and buffers staged inserts/removes; the live map is untouched until commit.
A staged entry `some v` is a pending put, `none` a pending delete. -/
structure Txn where
  tree : FMap
  staged : List (Nat × Option TableFragments)

def Txn.new (m : FMap) : Txn := ⟨m, []⟩

/-- Staged-aware view of a key, as `BTreeMapTransaction::get`. -/
def Txn.get (t : Txn) (k : Nat) : Option TableFragments :=
  match alget t.staged k with
  | some o => o
  | none => alget t.tree k

def Txn.insert (t : Txn) (k : Nat) (v : TableFragments) : Txn :=
  { t with staged := alinsert t.staged k (some v) }

def Txn.remove (t : Txn) (k : Nat) : Txn :=
  { t with staged := alinsert t.staged k none }

/-- Apply the staged write batch to the live map. -/
def applyStaged (tree : FMap) : List (Nat × Option TableFragments) → FMap
  | [] => tree
  | p :: rest =>
    match p.2 with
    | some v => applyStaged (alinsert tree p.1 v) rest
    | none => applyStaged (alerase tree p.1) rest

/-- Modelled from the spec (§4.1): `commit` submits the staged batch to the
Meta Store as one atomic write (`storeOk` injects its outcome) and swaps the
staged edits into the live map only on success; on failure the live map is
returned untouched with the error. -/
def Txn.commit (t : Txn) (storeOk : Bool) : Except MetaErr FMap :=
  if storeOk then Except.ok (applyStaged t.tree t.staged)
  else Except.error MetaErr.storeFailure

/-- One notification per stateful fragment, carrying its stored vnode
mapping; a stateful fragment without a mapping is a panic (`expect` in
`notify_fragment_mapping`). -/
def notifyMappings (op : Operation) : List (Nat × Fragment) → Except MetaErr (List Notif)
  | [] => Except.ok []
  | (_, f) :: rest =>
    if f.state_table_ids.isEmpty then notifyMappings op rest
    else
      match f.vnode_mapping with
      | none => Except.error MetaErr.panicked
      | some m => (notifyMappings op rest).map (fun ns => ⟨op, m⟩ :: ns)

def notifyFragmentMapping (tf : TableFragments) (op : Operation) :
    Except MetaErr (List Notif) :=
  notifyMappings op tf.fragments

def notifyTables (op : Operation) : List TableFragments → Except MetaErr (List Notif)
  | [] => Except.ok []
  | tf :: rest => do
    let n ← notifyFragmentMapping tf op
    let ns ← notifyTables op rest
    Except.ok (n ++ ns)

/-! ## Lifecycle operations

Each operation returns the resulting live map together with either the
emitted notifications or the error; an error before or at commit leaves
the live map exactly as the transaction found it. -/

/-- `start_create_table_fragments`: insert a new job; double create bails. -/
def startCreateTableFragments (tf : TableFragments) (st : FMap) (storeOk : Bool) :
    FMap × Except MetaErr (List Notif) :=
  if alHasKey st tf.table_id then (st, Except.error (MetaErr.alreadyExists tf.table_id))
  else
    let t := ((Txn.new st).insert tf.table_id tf)
    match t.commit storeOk with
    | Except.error e => (t.tree, Except.error e)
    | Except.ok st' => (st', Except.ok [])

/-- `cancel_create_table_fragments`: a missing id is only a warning; the
remove is committed either way. -/
def cancelCreateTableFragments (table_id : Nat) (st : FMap) (storeOk : Bool) :
    FMap × Except MetaErr (List Notif) :=
  let t := ((Txn.new st).remove table_id)
  match t.commit storeOk with
  | Except.error e => (t.tree, Except.error e)
  | Except.ok st' => (st', Except.ok [])

/-- `batch_update_table_fragments`: bulk replace, failing if any id is
absent; emits one Update notification per job on success. -/
def batchUpdateTableFragments (tfs : List TableFragments) (st : FMap) (storeOk : Bool) :
    FMap × Except MetaErr (List Notif) :=
  if tfs.any (fun tf => ¬ alHasKey st tf.table_id) then
    (st, Except.error MetaErr.invalidUpdate)
  else
    let t := tfs.foldl (fun t tf => t.insert tf.table_id tf) (Txn.new st)
    match t.commit storeOk with
    | Except.error e => (t.tree, Except.error e)
    | Except.ok st' =>
      match notifyTables Operation.update tfs with
      | Except.error e => (st', Except.error e)
      | Except.ok ns => (st', Except.ok ns)

/-! ## drop_table_fragments_vec -/

/-- The dispatcher repair applied to one actor's dispatcher list inside
`drop_table_fragments_vec`: each dispatcher's downstream list drops the
dropped job's chain actor ids, and a dispatcher whose list becomes empty
is removed (`retain_mut` in the source). -/
def patchDispatchers (chain : List Nat) (ds : List Dispatcher) : List Dispatcher :=
  (ds.map (fun d => { d with downstream_actor_id :=
      d.downstream_actor_id.filter (fun x => ! chain.contains x) })).filter
    (fun d => ! d.downstream_actor_id.isEmpty)

/-- The repair of one dependent (upstream) job: only Sink-typed fragments
are touched. -/
def patchDependentSinks (chain : List Nat) (tf : TableFragments) : TableFragments :=
  { tf with fragments := tf.fragments.map (fun p =>
      if p.2.fragment_type = FragmentType.sink then
        (p.1, { p.2 with actors := p.2.actors.map (fun a =>
          { a with dispatcher := patchDispatchers chain a.dispatcher }) })
      else p) }

/-- Stage the repairs of one dropped job's dependents; a dependent that is
itself being dropped is skipped; a missing dependent is an error. -/
def dropStageDeps (table_ids : List Nat) (chain : List Nat) :
    List Nat → Txn → Except MetaErr Txn
  | [], t => Except.ok t
  | dep :: rest, t =>
    if table_ids.contains dep then dropStageDeps table_ids chain rest t
    else
      match t.get dep with
      | none => Except.error (MetaErr.notFound dep)
      | some dtf =>
        dropStageDeps table_ids chain rest
          (t.insert dep (patchDependentSinks chain dtf))

/-- Stage the whole drop: remove each job, then repair its dependents. -/
def dropStage (table_ids : List Nat) : List TableFragments → Txn → Except MetaErr Txn
  | [], t => Except.ok t
  | tf :: rest, t =>
    match dropStageDeps table_ids tf.chain_actor_ids tf.dependent_table_ids
        (t.remove tf.table_id) with
    | Except.error e => Except.error e
    | Except.ok t1 => dropStage table_ids rest t1

/-- `drop_table_fragments_vec`: snapshot the present jobs, stage removals
and dependent repairs, commit atomically, then emit one Delete
notification per dropped job's stateful fragments. -/
def dropTableFragmentsVec (table_ids : List Nat) (st : FMap) (storeOk : Bool) :
    FMap × Except MetaErr (List Notif) :=
  let toDelete := table_ids.filterMap (fun id => alget st id)
  match dropStage table_ids toDelete (Txn.new st) with
  | Except.error e => (st, Except.error e)
  | Except.ok t =>
    match t.commit storeOk with
    | Except.error e => (t.tree, Except.error e)
    | Except.ok st' =>
      match notifyTables Operation.delete toDelete with
      | Except.error e => (st', Except.error e)
      | Except.ok ns => (st', Except.ok ns)

/-! ## Relations used to state the drop claims -/

/-- Sink-dispatcher health of one surviving upstream job after a drop
with chain actor ids `C`: every dispatcher of every Sink-typed fragment
contains no id of `C` and is nonempty (an emptied dispatcher has been
deleted). -/
def DispOk (C : List Nat) (tf : TableFragments) : Prop :=
  ∀ p ∈ tf.fragments, p.2.fragment_type = FragmentType.sink →
    ∀ a ∈ p.2.actors, ∀ d ∈ a.dispatcher,
      (∀ c ∈ C, c ∉ d.downstream_actor_id) ∧ d.downstream_actor_id ≠ []

/-- `f2` refines `f`: same fragment type, and every dispatcher of `f2`
has its downstream ids drawn from some dispatcher of `f`. -/
def FragSub (f2 f : Fragment) : Prop :=
  f2.fragment_type = f.fragment_type ∧
  ∀ a2 ∈ f2.actors, ∀ d2 ∈ a2.dispatcher,
    ∃ a ∈ f.actors, ∃ d ∈ a.dispatcher,
      ∀ x ∈ d2.downstream_actor_id, x ∈ d.downstream_actor_id

/-- Job-level refinement: each fragment of `tf2` refines one of `tf`. -/
def TfSub (tf2 tf : TableFragments) : Prop :=
  ∀ p2 ∈ tf2.fragments, ∃ p ∈ tf.fragments, FragSub p2.2 p.2

/-! ## A concrete drop scenario (spec §8, scenario 2)

Job 1 has a Sink fragment whose actor 100 dispatches to job 2's chain
actor 200; job 2's Chain fragment names job 1 as its upstream. -/

def witJobUp : TableFragments :=
  ⟨1, JobState.created,
    [(10, ⟨10, FragmentType.sink,
      [⟨100, none, [⟨7, none, [200]⟩], [], none⟩], none, [], []⟩)], [], []⟩

def witJobDown : TableFragments :=
  ⟨2, JobState.created,
    [(20, ⟨20, FragmentType.chain,
      [⟨200, none, [], [], none⟩], none, [], [1]⟩)], [], []⟩

def witStore : FMap := [(1, witJobUp), (2, witJobDown)]

/-- The store after `drop_table_fragments_vec({2})`: job 2 is gone and
job 1's dispatcher to actor 200 was emptied and therefore deleted. -/
def witStoreAfter : FMap :=
  [(1, ⟨1, JobState.created,
    [(10, ⟨10, FragmentType.sink,
      [⟨100, none, [], [], none⟩], none, [], []⟩)], [], []⟩)]

/-! ## pre_apply_reschedules / cancel_apply_reschedules

`created` maps a fragment id to the new actor shells (actor id →
(StreamActor, ActorStatus)).  `pre` walks the jobs in map order and, for
each fragment whose id is a key of `created`, consumes the entry,
appends the actors to the fragment's actor list, collects the statuses
(merged into the job's status map after the fragment loop), and records
a ledger entry; `cancel` removes, per fragment named by the ledger, the
actors and statuses with the recorded ids. -/

abbrev CreatedActors : Type := List (Nat × List (Nat × StreamActor × ActorStatus))

def preApplyFragments (created : CreatedActors) :
    List (Nat × Fragment) →
      List (Nat × Fragment) × CreatedActors × List (Nat × ActorStatus)
        × List (Nat × List Nat)
  | [] => ([], created, [], [])
  | p :: rest =>
    match alget created p.1 with
    | none =>
      let r := preApplyFragments created rest
      (p :: r.1, r.2.1, r.2.2.1, r.2.2.2)
    | some fca =>
      let r := preApplyFragments (alerase created p.1) rest
      ((p.1, { p.2 with actors := p.2.actors ++ fca.map (fun q => q.2.1) }) :: r.1,
       r.2.1,
       fca.map (fun q => (q.1, q.2.2)) ++ r.2.2.1,
       (p.1, fca.map (fun q => q.1)) :: r.2.2.2)

def preApplyTable (created : CreatedActors) (tf : TableFragments) :
    TableFragments × CreatedActors × List (Nat × List Nat) :=
  let r := preApplyFragments created tf.fragments
  ({ tf with
      fragments := r.1
      actor_status := r.2.2.1.foldl (fun m q => alinsert m q.1 q.2) tf.actor_status },
    r.2.1, r.2.2.2)

def preApplyReschedules (created : CreatedActors) : FMap → FMap × List (Nat × List Nat)
  | [] => ([], [])
  | p :: rest =>
    let r := preApplyTable created p.2
    let r2 := preApplyReschedules r.2.1 rest
    ((p.1, r.1) :: r2.1, r.2.2 ++ r2.2)

def cancelApplyFragments (ledger : List (Nat × List Nat)) :
    List (Nat × Fragment) → List (Nat × ActorStatus) →
      List (Nat × Fragment) × List (Nat × ActorStatus)
  | [], status => ([], status)
  | p :: rest, status =>
    match alget ledger p.1 with
    | none =>
      let r := cancelApplyFragments ledger rest status
      (p :: r.1, r.2)
    | some ids =>
      let r := cancelApplyFragments ledger rest
          (status.filter (fun q => ! ids.contains q.1))
      ((p.1, { p.2 with actors :=
          p.2.actors.filter (fun a => ! ids.contains a.actor_id) }) :: r.1, r.2)

def cancelApplyTable (ledger : List (Nat × List Nat)) (tf : TableFragments) :
    TableFragments :=
  let r := cancelApplyFragments ledger tf.fragments tf.actor_status
  { tf with fragments := r.1, actor_status := r.2 }

def cancelApplyReschedules (ledger : List (Nat × List Nat)) (st : FMap) : FMap :=
  st.map (fun p => (p.1, cancelApplyTable ledger p.2))

/-- The actor ids of one created-actors entry. -/
def createdGroup (e : Nat × List (Nat × StreamActor × ActorStatus)) : List Nat :=
  e.2.map (fun q => q.1)

/-- All actor ids named by a created-actors input. -/
def createdActorIds (created : CreatedActors) : List Nat :=
  created.flatMap createdGroup

/-- A created-actors input whose entry 99 names a fragment of no job in
`witStore` while entry 10 names job 1's sink fragment. -/
def witCreated : CreatedActors :=
  [(99, [(300, ⟨⟨300, none, [], [], none⟩, ⟨ActorState.inactive, none⟩⟩)]),
   (10, [(301, ⟨⟨301, none, [], [], none⟩, ⟨ActorState.inactive, none⟩⟩)])]

/-- A store whose job 1 already contains actor 100 (in fragment 1 and in
the status map). -/
def witClashStore : FMap :=
  [(1, ⟨1, JobState.created,
    [(1, ⟨1, FragmentType.others, [⟨100, none, [], [], none⟩], none, [], []⟩)],
    [(100, ⟨ActorState.running, none⟩)], []⟩)]

/-- A created-actors input that reuses the existing actor id 100 for
fragment 1. -/
def witClashCreated : CreatedActors :=
  [(1, [(100, ⟨⟨100, none, [], [], none⟩, ⟨ActorState.inactive, none⟩⟩)])]

/-! ## migrate_actors

`migrate_map` sends actor ids to target worker ids; `node_map` supplies
each worker's parallel-unit pool (popped from the back, as `Vec::pop`).
The per-actor step mirrors fragment.rs lines 393–413: an actor in the
migrate map whose old parallel-unit id was already migrated reuses the
recorded new unit; otherwise a fresh unit is popped from the target
worker's pool and recorded — the source unwraps both the worker lookup
and the pop, so an absent worker or an exhausted pool panics; actors
outside the migrate map (or without a parallel unit) are untouched. -/

def migrateStep (migrate_map : List (Nat × Nat)) (q : Nat × ActorStatus)
    (pumap : List (Nat × ParallelUnit)) (free : List (Nat × List ParallelUnit)) :
    Except MetaErr ((Nat × ActorStatus) × List (Nat × ParallelUnit)
      × List (Nat × List ParallelUnit) × Bool) :=
  match alget migrate_map q.1 with
  | none => Except.ok (q, pumap, free, false)
  | some w =>
    match q.2.parallel_unit with
    | none => Except.ok (q, pumap, free, false)
    | some old_pu =>
      match alget pumap old_pu.id with
      | some npu =>
        Except.ok ((q.1, { q.2 with parallel_unit := some npu }), pumap, free, true)
      | none =>
        match alget free w with
        | none => Except.error MetaErr.panicked
        | some pool =>
          match pool.getLast? with
          | none => Except.error MetaErr.panicked
          | some npu =>
            Except.ok ((q.1, { q.2 with parallel_unit := some npu }),
              alinsert pumap old_pu.id npu,
              alinsert free w pool.dropLast, true)

def migrateStatusList (migrate_map : List (Nat × Nat)) :
    List (Nat × ActorStatus) → List (Nat × ParallelUnit) →
    List (Nat × List ParallelUnit) →
    Except MetaErr (List (Nat × ActorStatus) × List (Nat × ParallelUnit)
      × List (Nat × List ParallelUnit) × Bool)
  | [], pumap, free => Except.ok ([], pumap, free, false)
  | q :: rest, pumap, free =>
    match migrateStep migrate_map q pumap free with
    | Except.error e => Except.error e
    | Except.ok r =>
      match migrateStatusList migrate_map rest r.2.1 r.2.2.1 with
      | Except.error e => Except.error e
      | Except.ok r2 =>
        Except.ok (r.1 :: r2.1, r2.2.1, r2.2.2.1, r.2.2.2 || r2.2.2.2)

/-- The loop over all jobs: each flagged job (one with at least one
migrated actor) is staged for the batch update after rewriting its vnode
mappings with the parallel-unit map accumulated so far. -/
def migrateTables (migrate_map : List (Nat × Nat)) :
    List TableFragments → List (Nat × ParallelUnit) →
    List (Nat × List ParallelUnit) →
    Except MetaErr (List (TableFragments × Bool) × List TableFragments
      × List (Nat × ParallelUnit) × List (Nat × List ParallelUnit))
  | [], pumap, free => Except.ok ([], [], pumap, free)
  | tf :: rest, pumap, free =>
    match migrateStatusList migrate_map tf.actor_status pumap free with
    | Except.error e => Except.error e
    | Except.ok r =>
      match migrateTables migrate_map rest r.2.1 r.2.2.1 with
      | Except.error e => Except.error e
      | Except.ok r2 =>
        Except.ok (({ tf with actor_status := r.1 }, r.2.2.2) :: r2.1,
          (if r.2.2.2 then
            [TableFragments.update_vnode_mapping
              { tf with actor_status := r.1 } r.2.1]
          else []) ++ r2.2.1,
          r2.2.2.1, r2.2.2.2)

/-- `migrate_actors`: run the loop over a snapshot of all jobs and commit
the staged jobs through `batch_update_table_fragments`. -/
def migrateActors (migrate_map : List (Nat × Nat))
    (node_map : List (Nat × List ParallelUnit)) (st : FMap) (storeOk : Bool) :
    FMap × Except MetaErr (List Notif) :=
  match migrateTables migrate_map (st.map (fun p => p.2)) [] node_map with
  | Except.error e => (st, Except.error e)
  | Except.ok r => batchUpdateTableFragments r.2.1 st storeOk

/-- The per-entry contract of migration relative to the final recorded
parallel-unit map: keys are kept; a migrated actor with old unit `old`
ends with the unit recorded under `old.id`; an unmigrated actor (or one
without a unit) is untouched. -/
def MigratedEntry (migrate_map : List (Nat × Nat))
    (pumapF : List (Nat × ParallelUnit)) (qin qout : Nat × ActorStatus) : Prop :=
  qout.1 = qin.1 ∧
  (∀ w, alget migrate_map qin.1 = some w →
    ∀ old, qin.2.parallel_unit = some old →
      ∃ npu, alget pumapF old.id = some npu ∧
        qout.2 = { qin.2 with parallel_unit := some npu }) ∧
  ((alget migrate_map qin.1 = none ∨ qin.2.parallel_unit = none) → qout = qin)

/-- Spec §8 scenario 3: one job with actors 1 and 2 on worker 1's
parallel units 11 and 12. -/
def witMigTf : TableFragments :=
  ⟨1, JobState.created, [],
    [(1, ⟨ActorState.running, some ⟨11, 1⟩⟩),
     (2, ⟨ActorState.running, some ⟨12, 1⟩⟩)], []⟩

/-- The statuses after migrating both actors to worker 2 (units popped
from the back of worker 2's pool). -/
def witMigOut : List (Nat × ActorStatus) :=
  [(1, ⟨ActorState.running, some ⟨24, 2⟩⟩),
   (2, ⟨ActorState.running, some ⟨23, 2⟩⟩)]

def witMigPumap : List (Nat × ParallelUnit) := [(11, ⟨24, 2⟩), (12, ⟨23, 2⟩)]

/-! ## post_create_table_fragments

The target job's actors are flipped to Running and its splits replaced;
each dependent job's actors are extended with the new dispatchers,
consuming the per-actor patch map by actor id (entries matching no actor
are silently dropped, as the source's `remove(&actor_id)`).  The state
check is an `assert_eq!` in the source, so a non-Creating job panics. -/

def extendDispatchersActors (nd : List (Nat × List Dispatcher)) :
    List StreamActor → List StreamActor × List (Nat × List Dispatcher)
  | [] => ([], nd)
  | a :: rest =>
    match alget nd a.actor_id with
    | some ds =>
      let r := extendDispatchersActors (alerase nd a.actor_id) rest
      ({ a with dispatcher := a.dispatcher ++ ds } :: r.1, r.2)
    | none =>
      let r := extendDispatchersActors nd rest
      (a :: r.1, r.2)

def extendDispatchersFragments (nd : List (Nat × List Dispatcher)) :
    List (Nat × Fragment) → List (Nat × Fragment) × List (Nat × List Dispatcher)
  | [] => ([], nd)
  | p :: rest =>
    let r := extendDispatchersActors nd p.2.actors
    let r2 := extendDispatchersFragments r.2 rest
    ((p.1, { p.2 with actors := r.1 }) :: r2.1, r2.2)

def extendDispatchers (nd : List (Nat × List Dispatcher)) (tf : TableFragments) :
    TableFragments :=
  { tf with fragments := (extendDispatchersFragments nd tf.fragments).1 }

def postCreateDeps : List (Nat × List (Nat × List Dispatcher)) → Txn →
    Except MetaErr Txn
  | [], t => Except.ok t
  | d :: rest, t =>
    match t.get d.1 with
    | none => Except.error (MetaErr.notFound d.1)
    | some dtf => postCreateDeps rest (t.insert d.1 (extendDispatchers d.2 dtf))

def postCreateTableFragments (table_id : Nat)
    (dependent_table_actors : List (Nat × List (Nat × List Dispatcher)))
    (split_assignment : SplitAssignment) (st : FMap) (storeOk : Bool) :
    FMap × Except MetaErr (List Notif) :=
  match alget st table_id with
  | none => (st, Except.error (MetaErr.notFound table_id))
  | some tf =>
    if tf.state ≠ JobState.creating then (st, Except.error MetaErr.panicked)
    else
      let tf1 := (tf.update_actors_state
        ActorState.running).set_actor_splits_by_split_assignment split_assignment
      match postCreateDeps dependent_table_actors
          ((Txn.new st).insert table_id tf1) with
      | Except.error e => (st, Except.error e)
      | Except.ok t2 =>
        match t2.commit storeOk with
        | Except.error e => (t2.tree, Except.error e)
        | Except.ok st2 =>
          match notifyFragmentMapping tf1 Operation.add with
          | Except.error e => (st2, Except.error e)
          | Except.ok ns => (st2, Except.ok ns)

/-! ## post_apply_reschedules

One `Reschedule` plan per fragment.  The embedding mirrors the source
loop: per affected job (in map order) the plans whose fragment belongs
to the job are drained and applied in sequence; each application flips
added actors to Running (unwrap panics if a status is missing), drops
removed actors' statuses/splits, merges the plan's splits, updates vnode
bitmaps, drops removed actors from the fragment, recomputes the
fragment's vnode mapping when one is present, queues a notification for
stateful fragments, patches the upstream dispatchers and the downstream
merge executors (skipping newly created actors, with the source's
`update_actors` assertions), and finally the batch commits and the
queued Update notifications are emitted. -/

structure Reschedule where
  added_actors : List Nat
  removed_actors : List Nat
  vnode_bitmap_updates : List (Nat × List Bool)
  upstream_fragment_dispatcher_ids : List (Nat × Nat)
  upstream_dispatcher_mapping : Option ActorMapping
  downstream_fragment_ids : Option Nat
  actor_splits : List (Nat × List Nat)
  deriving DecidableEq

/-- Modelled from the spec: `actor_mapping_to_parallel_unit_mapping`
(crate::stream, not under src/) composes an actor-level mapping with the
actor → parallel-unit assignment into a partition → parallel-unit
mapping for the fragment. -/
def actor_mapping_to_parallel_unit_mapping (fragment_id : Nat)
    (actor_to_pu : List (Nat × Nat)) (am : ActorMapping) : ParallelUnitMapping :=
  ⟨fragment_id, am.original_indices,
   am.data.map (fun a => (alget actor_to_pu a).getD 0)⟩

/-- The assertions of `update_actors`: created ids must be absent,
removed ids present. -/
def updateActorsOk (actors to_remove to_create : List Nat) : Bool :=
  to_create.all (fun a => ! actors.contains a)
    && to_remove.all (fun a => actors.contains a)

/-- The effect of `update_actors`: drain the removed ids, append the
created ids. -/
def updateActorsList (actors to_remove to_create : List Nat) : List Nat :=
  actors.filter (fun a => ! to_remove.contains a) ++ to_create

/-- Error-propagating list map (the shape of the source's loops). -/
def mapME {α β : Type} (f : α → Except MetaErr β) : List α → Except MetaErr (List β)
  | [] => Except.ok []
  | x :: xs =>
    match f x with
    | Except.error e => Except.error e
    | Except.ok y =>
      match mapME f xs with
      | Except.error e => Except.error e
      | Except.ok ys => Except.ok (y :: ys)

mutual

def updateMergeNodeUpstream (ufid : Nat) (rm cr : List Nat) : StreamNode → StreamNode
  | .node merge input =>
    .node
      (match merge with
       | some (fid, ups) =>
         if fid = ufid then some (fid, updateActorsList ups rm cr)
         else some (fid, ups)
       | none => none)
      (updateMergeNodeUpstreamList ufid rm cr input)

def updateMergeNodeUpstreamList (ufid : Nat) (rm cr : List Nat) :
    List StreamNode → List StreamNode
  | [] => []
  | x :: xs =>
    updateMergeNodeUpstream ufid rm cr x :: updateMergeNodeUpstreamList ufid rm cr xs

end

mutual

def mergeNodeOk (ufid : Nat) (rm cr : List Nat) : StreamNode → Bool
  | .node merge input =>
    (match merge with
     | some (fid, ups) =>
       if fid = ufid then updateActorsOk ups rm cr else true
     | none => true) && mergeNodeOkList ufid rm cr input

def mergeNodeOkList (ufid : Nat) (rm cr : List Nat) : List StreamNode → Bool
  | [] => true
  | x :: xs => mergeNodeOk ufid rm cr x && mergeNodeOkList ufid rm cr xs

end

/-- Step (a): set every added actor's status to Running; a missing
status is the source's `unwrap` panic. -/
def setAddedRunning : List Nat → List (Nat × ActorStatus) →
    Except MetaErr (List (Nat × ActorStatus))
  | [], status => Except.ok status
  | a :: rest, status =>
    match alget status a with
    | none => Except.error MetaErr.panicked
    | some s =>
      setAddedRunning rest (alinsert status a { s with state := ActorState.running })

def removeKeys {α : Type} (ks : List Nat) (m : List (Nat × α)) : List (Nat × α) :=
  ks.foldl (fun m a => alerase m a) m

def insertAll {α : Type} (m : List (Nat × α)) (xs : List (Nat × α)) : List (Nat × α) :=
  xs.foldl (fun m q => alinsert m q.1 q.2) m

/-- actor → parallel-unit id map built from the fragment's (post-update)
actors and the status snapshot. -/
def actorToPu (actors : List StreamActor) (status : List (Nat × ActorStatus)) :
    List (Nat × Nat) :=
  actors.foldl (fun m a =>
    match alget status a.actor_id with
    | some s =>
      match s.parallel_unit with
      | some pu => alinsert m a.actor_id pu.id
      | none => m
    | none => m) []

/-- One dispatcher of an upstream actor: a matching dispatcher id gets
its hash mapping overwritten and its downstream list updated (asserts). -/
def patchDispatcher (m : Option ActorMapping) (did : Nat) (rm cr : List Nat)
    (d : Dispatcher) : Except MetaErr Dispatcher :=
  if d.dispatcher_id = did then
    if updateActorsOk d.downstream_actor_id rm cr then
      Except.ok { d with
        hash_mapping := m
        downstream_actor_id := updateActorsList d.downstream_actor_id rm cr }
    else Except.error MetaErr.panicked
  else Except.ok d

/-- An upstream actor: newly created actors are skipped entirely. -/
def patchUpstreamActor (nc : List Nat) (m : Option ActorMapping) (did : Nat)
    (rm cr : List Nat) (a : StreamActor) : Except MetaErr StreamActor :=
  if nc.contains a.actor_id then Except.ok a
  else
    match mapME (patchDispatcher m did rm cr) a.dispatcher with
    | Except.error e => Except.error e
    | Except.ok ds => Except.ok { a with dispatcher := ds }

def patchUpstreamFragment (nc : List Nat) (m : Option ActorMapping) (did : Nat)
    (rm cr : List Nat) (f : Fragment) : Except MetaErr Fragment :=
  match mapME (patchUpstreamActor nc m did rm cr) f.actors with
  | Except.error e => Except.error e
  | Except.ok as => Except.ok { f with actors := as }

def patchUpstreamPairs (nc : List Nat) (m : Option ActorMapping) (rm cr : List Nat) :
    List (Nat × Nat) → List (Nat × Fragment) →
    Except MetaErr (List (Nat × Fragment))
  | [], fragments => Except.ok fragments
  | pr :: rest, fragments =>
    match alget fragments pr.1 with
    | none => Except.error MetaErr.panicked
    | some f =>
      match patchUpstreamFragment nc m pr.2 rm cr f with
      | Except.error e => Except.error e
      | Except.ok f2 =>
        patchUpstreamPairs nc m rm cr rest (alinsert fragments pr.1 f2)

/-- A downstream actor: its root upstream list and every Merge node
referring to the rescheduled fragment are updated (asserts). -/
def patchDownstreamActor (nc : List Nat) (fid : Nat) (rm cr : List Nat)
    (a : StreamActor) : Except MetaErr StreamActor :=
  if nc.contains a.actor_id then Except.ok a
  else
    if updateActorsOk a.upstream_actor_id rm cr then
      match a.nodes with
      | none =>
        Except.ok { a with upstream_actor_id := updateActorsList a.upstream_actor_id rm cr }
      | some n =>
        if mergeNodeOk fid rm cr n then
          Except.ok { a with
            upstream_actor_id := updateActorsList a.upstream_actor_id rm cr
            nodes := some (updateMergeNodeUpstream fid rm cr n) }
        else Except.error MetaErr.panicked
    else Except.error MetaErr.panicked

def patchDownstream (nc : List Nat) (fid : Nat) (rm cr : List Nat) (dfid : Nat)
    (fragments : List (Nat × Fragment)) : Except MetaErr (List (Nat × Fragment)) :=
  match alget fragments dfid with
  | none => Except.error MetaErr.panicked
  | some f =>
    match mapME (patchDownstreamActor nc fid rm cr) f.actors with
    | Except.error e => Except.error e
    | Except.ok as => Except.ok (alinsert fragments dfid { f with actors := as })

/-- The fragment's actor list after the bitmap updates (step d) and the
removal of the plan's removed actors (step e). -/
def rescheduledActors (r : Reschedule) (f : Fragment) : List StreamActor :=
  (f.actors.map (fun a =>
    match alget r.vnode_bitmap_updates a.actor_id with
    | some bm => { a with vnode_bitmap := some bm }
    | none => a)).filter (fun a => ! r.removed_actors.contains a.actor_id)

/-- Apply one (fragment, plan) pair to its job (steps a–i of the source
loop body), returning the updated job and the queued notifications. -/
def applyReschedule (nc : List Nat) (fid : Nat) (r : Reschedule)
    (tf : TableFragments) :
    Except MetaErr (TableFragments × List ParallelUnitMapping) :=
  match setAddedRunning r.added_actors tf.actor_status with
  | Except.error e => Except.error e
  | Except.ok status1 =>
    let status2 := removeKeys r.removed_actors status1
    let splits2 := insertAll (removeKeys r.removed_actors tf.actor_splits)
      r.actor_splits
    match alget tf.fragments fid with
    | none => Except.error MetaErr.panicked
    | some f =>
      let actors2 := rescheduledActors r f
      let f2 :=
        match f.vnode_mapping with
        | none => { f with actors := actors2 }
        | some vm =>
          match r.upstream_dispatcher_mapping with
          | some am =>
            { f with
              actors := actors2
              vnode_mapping := some (actor_mapping_to_parallel_unit_mapping fid
                (actorToPu actors2 status2) am) }
          | none => { f with actors := actors2, vnode_mapping := some vm }
      let notif :=
        match f2.vnode_mapping with
        | none => []
        | some vm2 =>
          if f2.state_table_ids.isEmpty then []
          else [{ vm2 with fragment_id := f2.fragment_id }]
      match patchUpstreamPairs nc r.upstream_dispatcher_mapping r.removed_actors
          r.added_actors r.upstream_fragment_dispatcher_ids
          (alinsert tf.fragments fid f2) with
      | Except.error e => Except.error e
      | Except.ok fragments2 =>
        match (match r.downstream_fragment_ids with
          | none => Except.ok fragments2
          | some dfid =>
            patchDownstream nc fid r.removed_actors r.added_actors dfid fragments2) with
        | Except.error e => Except.error e
        | Except.ok fragments3 =>
          Except.ok ({ tf with
            fragments := fragments3
            actor_status := status2
            actor_splits := splits2 }, notif)

def applyTablePlans (nc : List Nat) :
    List (Nat × Reschedule) → TableFragments →
    Except MetaErr (TableFragments × List ParallelUnitMapping)
  | [], tf => Except.ok (tf, [])
  | pr :: rest, tf =>
    match applyReschedule nc pr.1 pr.2 tf with
    | Except.error e => Except.error e
    | Except.ok r =>
      match applyTablePlans nc rest r.1 with
      | Except.error e => Except.error e
      | Except.ok r2 => Except.ok (r2.1, r.2 ++ r2.2)

def postApplyTables (nc : List Nat) :
    List Nat → List (Nat × Reschedule) → Txn →
    Except MetaErr (Txn × List (Nat × Reschedule) × List ParallelUnitMapping)
  | [], resch, t => Except.ok (t, resch, [])
  | tid :: rest, resch, t =>
    match t.get tid with
    | none => Except.error MetaErr.panicked
    | some tf =>
      match applyTablePlans nc
          (resch.filter (fun pr => alHasKey tf.fragments pr.1)) tf with
      | Except.error e => Except.error e
      | Except.ok r =>
        match postApplyTables nc rest
            (resch.filter (fun pr => ! alHasKey tf.fragments pr.1))
            (t.insert tid r.1) with
        | Except.error e => Except.error e
        | Except.ok r2 => Except.ok (r2.1, r2.2.1, r.2 ++ r2.2.2)

def postApplyReschedules (reschedules : List (Nat × Reschedule)) (st : FMap)
    (storeOk : Bool) : FMap × Except MetaErr (List Notif) :=
  let nc := reschedules.flatMap (fun pr => pr.2.added_actors)
  let toUpdate := (st.filter (fun p =>
    p.2.fragments.any (fun q => alHasKey reschedules q.1))).map
      (fun p => p.2.table_id)
  match postApplyTables nc toUpdate reschedules (Txn.new st) with
  | Except.error e => (st, Except.error e)
  | Except.ok r =>
    if ! r.2.1.isEmpty then (st, Except.error MetaErr.panicked)
    else
      match r.1.commit storeOk with
      | Except.error e => (r.1.tree, Except.error e)
      | Except.ok st2 =>
        (st2, Except.ok (r.2.2.map (fun m => ⟨Operation.update, m⟩)))

/-- The claim-side characterization of the dispatcher patch (C4): a
matching dispatcher id gets the plan's hash mapping and the
subtract-removed / append-added downstream update. -/
def c4ExpectedDispatcher (m : Option ActorMapping) (did : Nat) (rm cr : List Nat)
    (d : Dispatcher) : Dispatcher :=
  if d.dispatcher_id = did then
    { d with
      hash_mapping := m
      downstream_actor_id := updateActorsList d.downstream_actor_id rm cr }
  else d

/-- The claim-side characterization of an upstream actor's patch (C4):
newly created actors are untouched; other actors have every matching
dispatcher rewritten. -/
def c4ExpectedActor (nc : List Nat) (m : Option ActorMapping) (did : Nat)
    (rm cr : List Nat) (a : StreamActor) : StreamActor :=
  if nc.contains a.actor_id then a
  else { a with dispatcher := a.dispatcher.map (c4ExpectedDispatcher m did rm cr) }

/-! ## Concrete data for the reschedule witnesses -/

def witC4am : ActorMapping := ⟨[0], [1]⟩

def witC4d : Dispatcher := ⟨7, none, [1, 2]⟩

def witC4d2 : Dispatcher := ⟨7, some witC4am, [1, 2, 3]⟩

def witC4a50 : StreamActor := ⟨50, none, [witC4d], [], none⟩

def witC4a3 : StreamActor := ⟨3, none, [witC4d], [], none⟩

def witC4a50b : StreamActor := ⟨50, none, [witC4d2], [], none⟩

def witC4f5 : Fragment := ⟨5, FragmentType.others, [witC4a50, witC4a3], none, [], []⟩

def witC4f5b : Fragment :=
  ⟨5, FragmentType.others, [witC4a50b, witC4a3], none, [], []⟩

def witC4f6 : Fragment := ⟨6, FragmentType.others, [], none, [], []⟩

def witC4frs : List (Nat × Fragment) := [(5, witC4f5), (6, witC4f6)]

def witC4frs2 : List (Nat × Fragment) := [(5, witC4f5b), (6, witC4f6)]

def witC3am : ActorMapping := ⟨[0], [10]⟩

def witC3pu : ParallelUnit := ⟨77, 1⟩

def witC3st10 : ActorStatus := ⟨ActorState.running, some witC3pu⟩

def witC3a : StreamActor := ⟨10, none, [], [], none⟩

def witC3vm : ParallelUnitMapping := ⟨5, [0], [99]⟩

def witC3f : Fragment := ⟨5, FragmentType.others, [witC3a], some witC3vm, [2], []⟩

def witC3r : Reschedule := ⟨[], [], [], [], some witC3am, none, []⟩

def witC3tf : TableFragments :=
  ⟨1, JobState.created, [(5, witC3f)], [(10, witC3st10)], []⟩

def witC3vm2 : ParallelUnitMapping := ⟨5, [0], [77]⟩

def witC3f2 : Fragment :=
  ⟨5, FragmentType.others, [witC3a], some witC3vm2, [2], []⟩

def witC3tf2 : TableFragments :=
  ⟨1, JobState.created, [(5, witC3f2)], [(10, witC3st10)], []⟩

/-! ## Association-list lemmas -/

theorem alget_eq_none {α : Type} {m : List (Nat × α)} {k : Nat}
    (h : ∀ p ∈ m, p.1 ≠ k) : alget m k = none := by
  induction m with
  | nil => rfl
  | cons hd tl ih =>
    simp only [alget]
    rw [if_neg (h hd (List.mem_cons_self _ _))]
    exact ih (fun p hp => h p (List.mem_cons_of_mem _ hp))

theorem alget_none_imp {α : Type} {m : List (Nat × α)} {k : Nat}
    (h : alget m k = none) : ∀ p ∈ m, p.1 ≠ k := by
  induction m with
  | nil => intro p hp; cases hp
  | cons hd tl ih =>
    intro p hp
    simp only [alget] at h
    by_cases hk : hd.1 = k
    · rw [if_pos hk] at h; cases h
    · rw [if_neg hk] at h
      rcases List.mem_cons.mp hp with h1 | h1
      · rw [h1]; exact hk
      · exact ih h p h1

theorem alerase_eq_self {α : Type} {m : List (Nat × α)} {k : Nat}
    (h : alget m k = none) : alerase m k = m := by
  unfold alerase
  apply List.filter_eq_self.mpr
  intro p hp
  have := alget_none_imp h p hp
  simpa using this

theorem alget_alerase {α : Type} (m : List (Nat × α)) (k : Nat) :
    alget (alerase m k) k = none := by
  apply alget_eq_none
  intro p hp
  have := List.of_mem_filter hp
  simpa using this

theorem alerase_idem {α : Type} (m : List (Nat × α)) (k : Nat) :
    alerase (alerase m k) k = alerase m k :=
  alerase_eq_self (alget_alerase m k)

/-! ## Claim C9: idempotence of cancel-create -/

theorem cancel_create_state (st : FMap) (id : Nat) :
    (cancelCreateTableFragments id st true).1 = alerase st id := by
  simp [cancelCreateTableFragments, Txn.new, Txn.remove, Txn.commit,
    alinsert, applyStaged]

/-- Claim C9: `cancel_create_table_fragments` on an absent id succeeds with
the store unchanged, and calling it twice yields the same final state and
the same success result as calling it once. -/
theorem cancel_create_idempotent (st : FMap) (id : Nat) :
    (cancelCreateTableFragments id st true).2 = Except.ok [] ∧
    (alget st id = none → (cancelCreateTableFragments id st true).1 = st) ∧
    cancelCreateTableFragments id (cancelCreateTableFragments id st true).1 true
      = ((cancelCreateTableFragments id st true).1, Except.ok []) := by
  refine ⟨?_, ?_, ?_⟩
  · simp [cancelCreateTableFragments, Txn.new, Txn.remove, Txn.commit]
  · intro h
    rw [cancel_create_state]
    exact alerase_eq_self h
  · have h1 : (cancelCreateTableFragments id
        (cancelCreateTableFragments id st true).1 true).1
        = (cancelCreateTableFragments id st true).1 := by
      rw [cancel_create_state, cancel_create_state]
      exact alerase_idem st id
    have h2 : (cancelCreateTableFragments id
        (cancelCreateTableFragments id st true).1 true).2 = Except.ok [] := by
      simp [cancelCreateTableFragments, Txn.new, Txn.remove, Txn.commit]
    calc cancelCreateTableFragments id (cancelCreateTableFragments id st true).1 true
        = ((cancelCreateTableFragments id
            (cancelCreateTableFragments id st true).1 true).1,
           (cancelCreateTableFragments id
            (cancelCreateTableFragments id st true).1 true).2) := rfl
      _ = ((cancelCreateTableFragments id st true).1, Except.ok []) := by
          rw [h1, h2]

/-- Witness for C9 at a concrete input: id 3 is absent from the one-job
store, the call succeeds, leaves the store unchanged, and a second call
agrees with the first. -/
theorem cancel_create_idempotent_witness :
    (cancelCreateTableFragments 3 [] true).2 = Except.ok [] ∧
    (cancelCreateTableFragments 3 [] true).1 = [] ∧
    cancelCreateTableFragments 3 (cancelCreateTableFragments 3 [] true).1 true
      = ((cancelCreateTableFragments 3 [] true).1, Except.ok []) := by
  have h := cancel_create_idempotent [] 3
  exact ⟨h.1, h.2.1 rfl, h.2.2⟩

/-! ## Claim C1: atomicity of drop on commit failure -/

theorem dropStageDeps_tree {tds chain : List Nat} :
    ∀ {deps : List Nat} {t t' : Txn}, dropStageDeps tds chain deps t = Except.ok t' →
      t'.tree = t.tree := by
  intro deps
  induction deps with
  | nil => intro t t' h; cases h; rfl
  | cons dep rest ih =>
    intro t t' h
    rw [dropStageDeps] at h
    split at h
    · exact ih h
    · split at h
      · cases h
      · rw [ih h]; rfl

theorem dropStage_tree {tds : List Nat} :
    ∀ {tfs : List TableFragments} {t t' : Txn},
      dropStage tds tfs t = Except.ok t' → t'.tree = t.tree := by
  intro tfs
  induction tfs with
  | nil => intro t t' h; cases h; rfl
  | cons tf rest ih =>
    intro t t' h
    rw [dropStage] at h
    split at h
    · cases h
    · next t1 heq => rw [ih h, dropStageDeps_tree heq]; rfl

/-- Claim C1: when the Meta Store commit inside `drop_table_fragments_vec`
fails, the call returns the store error, the in-memory map is exactly the
pre-call map, and no Delete notification is emitted. -/
theorem drop_commit_failure_atomic (ids : List Nat) (st : FMap) (t : Txn)
    (h : dropStage ids (ids.filterMap (fun id => alget st id)) (Txn.new st)
      = Except.ok t) :
    dropTableFragmentsVec ids st false
      = (st, Except.error MetaErr.storeFailure) := by
  have htree : t.tree = st := dropStage_tree h
  simp only [dropTableFragmentsVec, h, Txn.commit, Bool.false_eq_true,
    if_false, htree]

/-- Witness for C1: dropping job 1 from a one-job store with an injected
store failure returns the error and leaves the map untouched. -/
theorem drop_commit_failure_atomic_witness :
    dropTableFragmentsVec [1]
        [(1, ⟨1, JobState.created, [], [], []⟩)] false
      = ([(1, ⟨1, JobState.created, [], [], []⟩)],
         Except.error MetaErr.storeFailure) :=
  drop_commit_failure_atomic [1] [(1, ⟨1, JobState.created, [], [], []⟩)]
    ⟨[(1, ⟨1, JobState.created, [], [], []⟩)], [(1, none)]⟩ rfl

/-! ## More association-list and transaction lemmas -/

theorem alget_some_mem {α : Type} : ∀ {m : List (Nat × α)} {k : Nat} {v : α},
    alget m k = some v → (k, v) ∈ m := by
  intro m
  induction m with
  | nil => intro k v h; cases h
  | cons p rest ih =>
    intro k v h
    obtain ⟨a, b⟩ := p
    simp only [alget] at h
    by_cases hk : a = k
    · rw [if_pos hk] at h
      cases h
      rw [← hk]
      exact List.mem_cons_self _ _
    · rw [if_neg hk] at h
      exact List.mem_cons_of_mem _ (ih h)

theorem alget_alinsert_self {α : Type} (m : List (Nat × α)) (k : Nat) (v : α) :
    alget (alinsert m k v) k = some v := by
  induction m with
  | nil => simp [alinsert, alget]
  | cons p rest ih =>
    by_cases h : p.1 = k
    · simp [alinsert, h, alget]
    · simp [alinsert, h, alget, ih]

theorem alget_alinsert_ne {α : Type} (m : List (Nat × α)) {k k' : Nat} (v : α)
    (h : k' ≠ k) : alget (alinsert m k v) k' = alget m k' := by
  induction m with
  | nil =>
    simp only [alinsert, alget]
    rw [if_neg (fun hh : k = k' => h hh.symm)]
  | cons p rest ih =>
    by_cases hp : p.1 = k
    · simp only [alinsert, if_pos hp, alget]
      rw [if_neg (fun hh : k = k' => h hh.symm),
        if_neg (by rw [hp]; exact fun hh : k = k' => h hh.symm)]
    · simp only [alinsert, if_neg hp, alget]
      by_cases hp' : p.1 = k'
      · rw [if_pos hp', if_pos hp']
      · rw [if_neg hp', if_neg hp', ih]

theorem alget_alerase_ne {α : Type} (m : List (Nat × α)) {k k' : Nat}
    (h : k' ≠ k) : alget (alerase m k) k' = alget m k' := by
  induction m with
  | nil => rfl
  | cons p rest ih =>
    simp only [alerase, List.filter_cons] at ih ⊢
    by_cases hp : p.1 = k
    · have : ¬ (p.1 ≠ k) := by simpa using hp
      rw [if_neg (by simpa using hp)]
      simp only [alget]
      rw [if_neg (by rw [hp]; exact fun hh => h hh.symm)]
      exact ih
    · rw [if_pos (by simpa using hp)]
      simp only [alget]
      by_cases hp' : p.1 = k'
      · rw [if_pos hp', if_pos hp']
      · rw [if_neg hp', if_neg hp', ih]

theorem alkeys_alinsert_mem {α : Type} : ∀ (m : List (Nat × α)) (k : Nat) (v : α),
    ∀ x ∈ alkeys (alinsert m k v), x = k ∨ x ∈ alkeys m := by
  intro m
  induction m with
  | nil => intro k v x hx; simp [alinsert, alkeys] at hx; exact Or.inl hx
  | cons p rest ih =>
    intro k v x hx
    by_cases hp : p.1 = k
    · simp only [alinsert, if_pos hp, alkeys, List.map_cons, List.mem_cons] at hx
      rcases hx with h1 | h1
      · exact Or.inl h1
      · exact Or.inr (by simp [alkeys]; right; simpa [alkeys] using h1)
    · simp only [alinsert, if_neg hp, alkeys, List.map_cons, List.mem_cons] at hx
      rcases hx with h1 | h1
      · exact Or.inr (by simp [alkeys, h1])
      · rcases ih k v x (by simpa [alkeys] using h1) with h2 | h2
        · exact Or.inl h2
        · exact Or.inr (by simp [alkeys] at h2 ⊢; exact Or.inr h2)

theorem alkeys_alinsert_nodup {α : Type} : ∀ (m : List (Nat × α)) (k : Nat) (v : α),
    (alkeys m).Nodup → (alkeys (alinsert m k v)).Nodup := by
  intro m
  induction m with
  | nil => intro k v _; simp [alinsert, alkeys]
  | cons p rest ih =>
    intro k v hnd
    simp only [alkeys, List.map_cons, List.nodup_cons] at hnd
    by_cases hp : p.1 = k
    · simp only [alinsert, if_pos hp, alkeys, List.map_cons, List.nodup_cons]
      exact ⟨by rw [← hp]; exact hnd.1, hnd.2⟩
    · simp only [alinsert, if_neg hp, alkeys, List.map_cons, List.nodup_cons]
      constructor
      · intro hmem
        rcases alkeys_alinsert_mem rest k v p.1 (by simpa [alkeys] using hmem) with h1 | h1
        · exact hp h1
        · exact hnd.1 (by simpa [alkeys] using h1)
      · exact ih k v hnd.2

/-- With pairwise-distinct staged keys, reading the committed map is
reading the staged view. -/
theorem applyStaged_get : ∀ (staged : List (Nat × Option TableFragments))
    (tree : FMap) (k : Nat), (alkeys staged).Nodup →
    alget (applyStaged tree staged) k = Txn.get ⟨tree, staged⟩ k := by
  intro staged
  induction staged with
  | nil => intro tree k _; rfl
  | cons p rest ih =>
    intro tree k hnd
    simp only [alkeys, List.map_cons, List.nodup_cons] at hnd
    have hrest : (alkeys rest).Nodup := hnd.2
    by_cases hk : p.1 = k
    · have hnone : alget rest k = none := by
        apply alget_eq_none
        intro q hq hq1
        exact hnd.1 (by rw [hk, ← hq1]; exact List.mem_map_of_mem _ hq)
      cases ho : p.2 with
      | some v =>
        simp only [applyStaged, ho]
        rw [ih (alinsert tree p.1 v) k hrest]
        simp only [Txn.get, alget, hnone, if_pos hk, ho]
        rw [hk, alget_alinsert_self]
      | none =>
        simp only [applyStaged, ho]
        rw [ih (alerase tree p.1) k hrest]
        simp only [Txn.get, alget, hnone, if_pos hk, ho]
        rw [hk, alget_alerase]
    · cases ho : p.2 with
      | some v =>
        simp only [applyStaged, ho]
        rw [ih (alinsert tree p.1 v) k hrest]
        simp only [Txn.get, alget, if_neg hk]
        cases hr : alget rest k with
        | some o => rfl
        | none => exact alget_alinsert_ne tree _ (fun hh => hk hh.symm)
      | none =>
        simp only [applyStaged, ho]
        rw [ih (alerase tree p.1) k hrest]
        simp only [Txn.get, alget, if_neg hk]
        cases hr : alget rest k with
        | some o => rfl
        | none => exact alget_alerase_ne tree (fun hh => hk hh.symm)

theorem txn_get_insert_self (t : Txn) (k : Nat) (v : TableFragments) :
    (t.insert k v).get k = some v := by
  simp [Txn.insert, Txn.get, alget_alinsert_self]

theorem txn_get_insert_ne (t : Txn) {k k' : Nat} (h : k' ≠ k) (v : TableFragments) :
    (t.insert k v).get k' = t.get k' := by
  simp only [Txn.insert, Txn.get]
  rw [alget_alinsert_ne _ _ h]

theorem txn_get_remove_self (t : Txn) (k : Nat) : (t.remove k).get k = none := by
  simp [Txn.remove, Txn.get, alget_alinsert_self]

theorem txn_get_remove_ne (t : Txn) {k k' : Nat} (h : k' ≠ k) :
    (t.remove k).get k' = t.get k' := by
  simp only [Txn.remove, Txn.get]
  rw [alget_alinsert_ne _ _ h]

/-! ## Dispatcher-repair lemmas -/

theorem txn_get_new (st : FMap) (k : Nat) : (Txn.new st).get k = alget st k := rfl

theorem patchDispatchers_spec (C : List Nat) (ds : List Dispatcher) :
    ∀ d2 ∈ patchDispatchers C ds,
      ((∀ c ∈ C, c ∉ d2.downstream_actor_id) ∧ d2.downstream_actor_id ≠ []) ∧
      ∃ d ∈ ds, ∀ x ∈ d2.downstream_actor_id, x ∈ d.downstream_actor_id := by
  intro d2 hd2
  unfold patchDispatchers at hd2
  obtain ⟨hmap, hne⟩ := List.mem_filter.mp hd2
  obtain ⟨d, hd, hgd⟩ := List.mem_map.mp hmap
  have hds : d2.downstream_actor_id
      = d.downstream_actor_id.filter (fun x => ! C.contains x) := by
    rw [← hgd]
  refine ⟨⟨?_, ?_⟩, d, hd, ?_⟩
  · intro c hc hmem
    rw [hds] at hmem
    have := (List.mem_filter.mp hmem).2
    simp at this
    exact this hc
  · intro hemp
    rw [hemp] at hne
    simp at hne
  · intro x hx
    rw [hds] at hx
    exact (List.mem_filter.mp hx).1

theorem dispOk_patchDependentSinks_self (C : List Nat) (tf : TableFragments) :
    DispOk C (patchDependentSinks C tf) := by
  intro p hp hsink a ha d hd
  unfold patchDependentSinks at hp
  obtain ⟨q, hq, hgq⟩ := List.mem_map.mp hp
  by_cases hq2 : q.2.fragment_type = FragmentType.sink
  · rw [if_pos hq2] at hgq
    have hpa : p.2.actors = q.2.actors.map
        (fun a => { a with dispatcher := patchDispatchers C a.dispatcher }) := by
      rw [← hgq]
    rw [hpa] at ha
    obtain ⟨a0, ha0, hga⟩ := List.mem_map.mp ha
    have hda : a.dispatcher = patchDispatchers C a0.dispatcher := by rw [← hga]
    rw [hda] at hd
    exact (patchDispatchers_spec C a0.dispatcher d hd).1
  · rw [if_neg hq2] at hgq
    rw [← hgq] at hsink
    exact absurd hsink hq2

theorem dispOk_patchDependentSinks_pres {C0 : List Nat} (C : List Nat)
    {tf : TableFragments} (h : DispOk C0 tf) :
    DispOk C0 (patchDependentSinks C tf) := by
  intro p hp hsink a ha d hd
  unfold patchDependentSinks at hp
  obtain ⟨q, hq, hgq⟩ := List.mem_map.mp hp
  by_cases hq2 : q.2.fragment_type = FragmentType.sink
  · rw [if_pos hq2] at hgq
    have hpa : p.2.actors = q.2.actors.map
        (fun a => { a with dispatcher := patchDispatchers C a.dispatcher }) := by
      rw [← hgq]
    rw [hpa] at ha
    obtain ⟨a0, ha0, hga⟩ := List.mem_map.mp ha
    have hda : a.dispatcher = patchDispatchers C a0.dispatcher := by rw [← hga]
    rw [hda] at hd
    obtain ⟨⟨_, hne⟩, d0, hd0, hsub⟩ := patchDispatchers_spec C a0.dispatcher d hd
    have h0 := h q hq hq2 a0 ha0 d0 hd0
    exact ⟨fun c hc hmem => (h0.1 c hc) (hsub c hmem), hne⟩
  · rw [if_neg hq2] at hgq
    have hpq : p = q := hgq.symm
    subst hpq
    exact absurd hsink hq2

theorem fragSub_refl (f : Fragment) : FragSub f f :=
  ⟨rfl, fun a2 ha2 d2 hd2 => ⟨a2, ha2, d2, hd2, fun _ hx => hx⟩⟩

theorem fragSub_trans {a b c : Fragment} (h1 : FragSub a b) (h2 : FragSub b c) :
    FragSub a c := by
  refine ⟨h1.1.trans h2.1, ?_⟩
  intro a2 ha2 d2 hd2
  obtain ⟨a1, ha1, d1, hd1, hs1⟩ := h1.2 a2 ha2 d2 hd2
  obtain ⟨a0, ha0, d0, hd0, hs2⟩ := h2.2 a1 ha1 d1 hd1
  exact ⟨a0, ha0, d0, hd0, fun x hx => hs2 x (hs1 x hx)⟩

theorem tfSub_refl (tf : TableFragments) : TfSub tf tf :=
  fun p2 hp2 => ⟨p2, hp2, fragSub_refl p2.2⟩

theorem tfSub_trans {a b c : TableFragments} (h1 : TfSub a b) (h2 : TfSub b c) :
    TfSub a c := by
  intro p2 hp2
  obtain ⟨p1, hp1, hf1⟩ := h1 p2 hp2
  obtain ⟨p0, hp0, hf0⟩ := h2 p1 hp1
  exact ⟨p0, hp0, fragSub_trans hf1 hf0⟩

theorem tfSub_patchDependentSinks (C : List Nat) (tf : TableFragments) :
    TfSub (patchDependentSinks C tf) tf := by
  intro p2 hp2
  unfold patchDependentSinks at hp2
  obtain ⟨q, hq, hgq⟩ := List.mem_map.mp hp2
  by_cases hq2 : q.2.fragment_type = FragmentType.sink
  · rw [if_pos hq2] at hgq
    refine ⟨q, hq, ?_, ?_⟩
    · rw [← hgq]
    · intro a2 ha2 d2 hd2
      have hpa : p2.2.actors = q.2.actors.map
          (fun a => { a with dispatcher := patchDispatchers C a.dispatcher }) := by
        rw [← hgq]
      rw [hpa] at ha2
      obtain ⟨a0, ha0, hga⟩ := List.mem_map.mp ha2
      have hda : a2.dispatcher = patchDispatchers C a0.dispatcher := by rw [← hga]
      rw [hda] at hd2
      obtain ⟨_, d0, hd0, hsub⟩ := patchDispatchers_spec C a0.dispatcher d2 hd2
      exact ⟨a0, ha0, d0, hd0, hsub⟩
  · rw [if_neg hq2] at hgq
    have hpq : p2 = q := hgq.symm
    subst hpq
    exact ⟨p2, hq, fragSub_refl p2.2⟩

/-! ## Invariants of the drop staging loop -/

theorem dropStageDeps_nodup {tds chain : List Nat} :
    ∀ {deps : List Nat} {t t' : Txn}, dropStageDeps tds chain deps t = Except.ok t' →
      (alkeys t.staged).Nodup → (alkeys t'.staged).Nodup := by
  intro deps
  induction deps with
  | nil => intro t t' h hnd; cases h; exact hnd
  | cons dep rest ih =>
    intro t t' h hnd
    rw [dropStageDeps] at h
    split at h
    · exact ih h hnd
    · split at h
      · cases h
      · exact ih h (alkeys_alinsert_nodup _ _ _ hnd)

theorem dropStage_nodup {tds : List Nat} :
    ∀ {tfs : List TableFragments} {t t' : Txn},
      dropStage tds tfs t = Except.ok t' →
      (alkeys t.staged).Nodup → (alkeys t'.staged).Nodup := by
  intro tfs
  induction tfs with
  | nil => intro t t' h hnd; cases h; exact hnd
  | cons tf rest ih =>
    intro t t' h hnd
    rw [dropStage] at h
    split at h
    · cases h
    · next t1 heq =>
        exact ih h (dropStageDeps_nodup heq (alkeys_alinsert_nodup _ _ _ hnd))

theorem dropStageDeps_view {tds chain : List Nat} :
    ∀ {deps : List Nat} {t t' : Txn}, dropStageDeps tds chain deps t = Except.ok t' →
      ∀ (k : Nat) (utf' : TableFragments), t'.get k = some utf' →
        ∃ utf, t.get k = some utf ∧ TfSub utf' utf := by
  intro deps
  induction deps with
  | nil =>
    intro t t' h k utf' hget
    cases h
    exact ⟨utf', hget, tfSub_refl utf'⟩
  | cons dep rest ih =>
    intro t t' h k utf' hget
    rw [dropStageDeps] at h
    split at h
    · exact ih h k utf' hget
    · split at h
      · cases h
      · next dtf heq =>
          obtain ⟨utf1, hget1, hsub1⟩ := ih h k utf' hget
          by_cases hk : k = dep
          · subst hk
            rw [txn_get_insert_self] at hget1
            cases hget1
            exact ⟨dtf, heq, tfSub_trans hsub1 (tfSub_patchDependentSinks chain dtf)⟩
          · rw [txn_get_insert_ne t hk] at hget1
            exact ⟨utf1, hget1, hsub1⟩

theorem dropStage_view {tds : List Nat} :
    ∀ {tfs : List TableFragments} {t t' : Txn},
      dropStage tds tfs t = Except.ok t' →
      ∀ (k : Nat) (utf' : TableFragments), t'.get k = some utf' →
        ∃ utf, t.get k = some utf ∧ TfSub utf' utf := by
  intro tfs
  induction tfs with
  | nil =>
    intro t t' h k utf' hget
    cases h
    exact ⟨utf', hget, tfSub_refl utf'⟩
  | cons tf rest ih =>
    intro t t' h k utf' hget
    rw [dropStage] at h
    split at h
    · cases h
    · next t1 heq =>
        obtain ⟨utf1, hget1, hsub1⟩ := ih h k utf' hget
        obtain ⟨utf2, hget2, hsub2⟩ := dropStageDeps_view heq k utf1 hget1
        by_cases hk : k = tf.table_id
        · subst hk
          rw [txn_get_remove_self] at hget2
          cases hget2
        · rw [txn_get_remove_ne t hk] at hget2
          exact ⟨utf2, hget2, tfSub_trans hsub1 hsub2⟩

theorem dropStageDeps_none_pres {tds chain : List Nat} :
    ∀ {deps : List Nat} {t t' : Txn}, dropStageDeps tds chain deps t = Except.ok t' →
      ∀ k ∈ tds, t.get k = none → t'.get k = none := by
  intro deps
  induction deps with
  | nil => intro t t' h k _ hnone; cases h; exact hnone
  | cons dep rest ih =>
    intro t t' h k hk hnone
    rw [dropStageDeps] at h
    split at h
    · exact ih h k hk hnone
    · next hguard =>
        split at h
        · cases h
        · next dtf heq =>
            have hne : k ≠ dep := by
              intro hkd
              subst hkd
              exact hguard (by simpa using hk)
            refine ih h k hk ?_
            rw [txn_get_insert_ne t hne]
            exact hnone

theorem dropStage_removed {tds : List Nat} :
    ∀ {tfs : List TableFragments} {t t' : Txn},
      dropStage tds tfs t = Except.ok t' →
      ∀ k ∈ tds, (t.get k = none ∨ ∃ tf ∈ tfs, tf.table_id = k) →
        t'.get k = none := by
  intro tfs
  induction tfs with
  | nil =>
    intro t t' h k _ hst
    cases h
    rcases hst with h1 | ⟨tf, htf, _⟩
    · exact h1
    · cases htf
  | cons tf rest ih =>
    intro t t' h k hk hst
    rw [dropStage] at h
    split at h
    · cases h
    · next t1 heq =>
        rcases hst with h1 | ⟨tf0, htf0, htid⟩
        · refine ih h k hk (Or.inl ?_)
          refine dropStageDeps_none_pres heq k hk ?_
          by_cases hkt : k = tf.table_id
          · subst hkt; exact txn_get_remove_self t _
          · rw [txn_get_remove_ne t hkt]; exact h1
        · rcases List.mem_cons.mp htf0 with h2 | h2
          · subst h2
            refine ih h k hk (Or.inl ?_)
            refine dropStageDeps_none_pres heq k hk ?_
            rw [← htid]
            exact txn_get_remove_self t _
          · exact ih h k hk (Or.inr ⟨tf0, h2, htid⟩)

theorem dropStageDeps_dispok_pres {tds chain : List Nat} :
    ∀ {deps : List Nat} {t t' : Txn}, dropStageDeps tds chain deps t = Except.ok t' →
      ∀ (u : Nat) (C0 : List Nat),
        (∃ utf, t.get u = some utf ∧ DispOk C0 utf) →
        ∃ utf', t'.get u = some utf' ∧ DispOk C0 utf' := by
  intro deps
  induction deps with
  | nil => intro t t' h u C0 hex; cases h; exact hex
  | cons dep rest ih =>
    intro t t' h u C0 hex
    rw [dropStageDeps] at h
    split at h
    · exact ih h u C0 hex
    · split at h
      · cases h
      · next dtf heq =>
          obtain ⟨utf, hget, hok⟩ := hex
          by_cases hu : u = dep
          · subst hu
            rw [hget] at heq
            injection heq with h3
            subst h3
            refine ih h u C0 ⟨patchDependentSinks chain utf, ?_, ?_⟩
            · exact txn_get_insert_self t u _
            · exact dispOk_patchDependentSinks_pres chain hok
          · refine ih h u C0 ⟨utf, ?_, hok⟩
            rw [txn_get_insert_ne t hu]
            exact hget

theorem dropStage_dispok_pres {tds : List Nat} :
    ∀ {tfs : List TableFragments} {t t' : Txn},
      dropStage tds tfs t = Except.ok t' →
      (∀ tf2 ∈ tfs, tf2.table_id ∈ tds) →
      ∀ (u : Nat) (C0 : List Nat), u ∉ tds →
        (∃ utf, t.get u = some utf ∧ DispOk C0 utf) →
        ∃ utf', t'.get u = some utf' ∧ DispOk C0 utf' := by
  intro tfs
  induction tfs with
  | nil => intro t t' h _ u C0 _ hex; cases h; exact hex
  | cons tf rest ih =>
    intro t t' h htds u C0 hu hex
    rw [dropStage] at h
    split at h
    · cases h
    · next t1 heq =>
        obtain ⟨utf, hget, hok⟩ := hex
        have hne : u ≠ tf.table_id := by
          intro hco
          exact hu (hco ▸ htds tf (List.mem_cons_self _ _))
        refine ih h (fun tf2 h2 => htds tf2 (List.mem_cons_of_mem _ h2)) u C0 hu ?_
        refine dropStageDeps_dispok_pres heq u C0 ⟨utf, ?_, hok⟩
        rw [txn_get_remove_ne t hne]
        exact hget

theorem dropStageDeps_establish {tds chain : List Nat} :
    ∀ {deps : List Nat} {t t' : Txn}, dropStageDeps tds chain deps t = Except.ok t' →
      ∀ u ∈ deps, u ∉ tds →
        ∃ utf, t'.get u = some utf ∧ DispOk chain utf := by
  intro deps
  induction deps with
  | nil => intro t t' _ u hu; cases hu
  | cons dep rest ih =>
    intro t t' h u hu hun
    rw [dropStageDeps] at h
    split at h
    · next hguard =>
        rcases List.mem_cons.mp hu with h1 | h1
        · subst h1
          exact absurd (by simpa using hguard) hun
        · exact ih h u h1 hun
    · split at h
      · cases h
      · next dtf heq =>
          rcases List.mem_cons.mp hu with h1 | h1
          · subst h1
            refine dropStageDeps_dispok_pres h u chain
              ⟨patchDependentSinks chain dtf, ?_, ?_⟩
            · exact txn_get_insert_self t u _
            · exact dispOk_patchDependentSinks_self chain dtf
          · exact ih h u h1 hun

theorem dropStage_establish {tds : List Nat} :
    ∀ {tfs : List TableFragments} {t t' : Txn},
      dropStage tds tfs t = Except.ok t' →
      (∀ tf2 ∈ tfs, tf2.table_id ∈ tds) →
      ∀ tfJ ∈ tfs, ∀ u ∈ tfJ.dependent_table_ids, u ∉ tds →
        ∃ utf, t'.get u = some utf ∧ DispOk tfJ.chain_actor_ids utf := by
  intro tfs
  induction tfs with
  | nil => intro t t' _ _ tfJ htfJ; cases htfJ
  | cons tf rest ih =>
    intro t t' h htds tfJ htfJ u hu hun
    rw [dropStage] at h
    split at h
    · cases h
    · next t1 heq =>
        rcases List.mem_cons.mp htfJ with h1 | h1
        · subst h1
          exact dropStage_dispok_pres h
            (fun tf2 h2 => htds tf2 (List.mem_cons_of_mem _ h2)) u _ hun
            (dropStageDeps_establish heq u hu hun)
        · exact ih h (fun tf2 h2 => htds tf2 (List.mem_cons_of_mem _ h2)) tfJ h1 u hu hun

/-! ## Claim C2: functional correctness of drop -/

theorem drop_success_shape (ids : List Nat) (st st' : FMap) (ns : List Notif)
    (h : dropTableFragmentsVec ids st true = (st', Except.ok ns)) :
    ∃ t, dropStage ids (ids.filterMap (fun i => alget st i)) (Txn.new st)
        = Except.ok t ∧
      st' = applyStaged st t.staged ∧
      notifyTables Operation.delete (ids.filterMap (fun i => alget st i))
        = Except.ok ns := by
  rw [dropTableFragmentsVec] at h
  cases hds : dropStage ids (ids.filterMap (fun i => alget st i)) (Txn.new st) with
  | error e => rw [hds] at h; simp at h
  | ok t =>
    rw [hds] at h
    have htree : t.tree = st := dropStage_tree hds
    simp only [Txn.commit, if_pos] at h
    cases hnt : notifyTables Operation.delete (ids.filterMap (fun i => alget st i)) with
    | error e => rw [hnt] at h; simp at h
    | ok ns0 =>
      rw [hnt] at h
      simp only [Prod.mk.injEq, Except.ok.injEq] at h
      exact ⟨t, rfl, by rw [← h.1, htree], by rw [h.2]⟩

/-- Claim C2: after a successful `drop_table_fragments_vec(S)`, every job
of S is gone; for every dropped job J and surviving upstream U of J,
every dispatcher of every Sink fragment of U contains none of J's chain
actor ids and emptied dispatchers were deleted; and — given that in the
pre-state only dependent Sink fragments referenced chain actors of
dropped jobs — no dispatcher of any surviving job refers to a chain actor
of any job of S. -/
theorem drop_table_fragments_spec
    (ids : List Nat) (st st' : FMap) (ns : List Notif)
    (hwk : ∀ p ∈ st, p.2.table_id = p.1)
    (hsucc : dropTableFragmentsVec ids st true = (st', Except.ok ns))
    (H : ∀ pr ∈ st, pr.1 ∉ ids →
      ∀ p ∈ pr.2.fragments, ∀ a ∈ p.2.actors, ∀ d ∈ a.dispatcher,
        ∀ tfJ ∈ ids.filterMap (fun i => alget st i),
          ∀ x ∈ tfJ.chain_actor_ids, x ∈ d.downstream_actor_id →
            pr.1 ∈ tfJ.dependent_table_ids ∧
            p.2.fragment_type = FragmentType.sink) :
    (∀ j ∈ ids, alget st' j = none) ∧
    (∀ tfJ ∈ ids.filterMap (fun i => alget st i),
      ∀ u ∈ tfJ.dependent_table_ids, u ∉ ids →
        ∃ utf, alget st' u = some utf ∧ DispOk tfJ.chain_actor_ids utf) ∧
    (∀ k, k ∉ ids → ∀ utf2, alget st' k = some utf2 →
      ∀ p ∈ utf2.fragments, ∀ a ∈ p.2.actors, ∀ d ∈ a.dispatcher,
        ∀ tfJ ∈ ids.filterMap (fun i => alget st i),
          ∀ x ∈ tfJ.chain_actor_ids, x ∉ d.downstream_actor_id) := by
  obtain ⟨t, hds, hst', hnt⟩ := drop_success_shape ids st st' ns hsucc
  have htree : t.tree = st := dropStage_tree hds
  have hnodup : (alkeys t.staged).Nodup :=
    dropStage_nodup hds (by simp [Txn.new, alkeys])
  have hview : ∀ k, alget st' k = t.get k := by
    intro k
    rw [hst', applyStaged_get t.staged st k hnodup]
    cases t with
    | mk tr sg =>
      simp only [Txn.tree] at htree
      rw [htree]
  have htds : ∀ tf2 ∈ ids.filterMap (fun i => alget st i), tf2.table_id ∈ ids := by
    intro tf2 h2
    obtain ⟨j, hj, hget⟩ := List.mem_filterMap.mp h2
    rw [hwk (j, tf2) (alget_some_mem hget)]
    exact hj
  have halpha : ∀ j ∈ ids, alget st' j = none := by
    intro j hj
    rw [hview]
    refine dropStage_removed hds j hj ?_
    cases hget : alget st j with
    | none => exact Or.inl (by rw [txn_get_new]; exact hget)
    | some tfj =>
      exact Or.inr ⟨tfj, List.mem_filterMap.mpr ⟨j, hj, hget⟩,
        hwk (j, tfj) (alget_some_mem hget)⟩
  have hbeta : ∀ tfJ ∈ ids.filterMap (fun i => alget st i),
      ∀ u ∈ tfJ.dependent_table_ids, u ∉ ids →
        ∃ utf, alget st' u = some utf ∧ DispOk tfJ.chain_actor_ids utf := by
    intro tfJ htfJ u hu hun
    obtain ⟨utf, hget, hok⟩ := dropStage_establish hds htds tfJ htfJ u hu hun
    exact ⟨utf, by rw [hview]; exact hget, hok⟩
  refine ⟨halpha, hbeta, ?_⟩
  intro k hk utf2 hget2 p hp a ha d hd tfJ htfJ x hx hmem
  have hgt : t.get k = some utf2 := by rw [← hview]; exact hget2
  obtain ⟨utf, hget0, hsub⟩ := dropStage_view hds k utf2 hgt
  rw [txn_get_new] at hget0
  obtain ⟨q, hq, hfsub⟩ := hsub p hp
  obtain ⟨a0, ha0, d0, hd0, hss⟩ := hfsub.2 a ha d hd
  obtain ⟨hdep, hsink⟩ := H (k, utf) (alget_some_mem hget0) hk q hq a0 ha0
    d0 hd0 tfJ htfJ x hx (hss x hmem)
  obtain ⟨utfk, hgetk, hok⟩ := hbeta tfJ htfJ k hdep hk
  rw [hget2] at hgetk
  injection hgetk with h3
  subst h3
  exact ((hok p hp (hfsub.1.trans hsink) a ha d hd).1 x hx) hmem

/-- Witness for C2 at the concrete two-job scenario: dropping job 2
removes it, repairs job 1's sink dispatcher, and leaves no reference to
chain actor 200. -/
theorem drop_table_fragments_spec_witness :
    (∀ j ∈ [2], alget witStoreAfter j = none) ∧
    (∀ tfJ ∈ [2].filterMap (fun i => alget witStore i),
      ∀ u ∈ tfJ.dependent_table_ids, u ∉ [2] →
        ∃ utf, alget witStoreAfter u = some utf ∧
          DispOk tfJ.chain_actor_ids utf) ∧
    (∀ k, k ∉ [2] → ∀ utf2, alget witStoreAfter k = some utf2 →
      ∀ p ∈ utf2.fragments, ∀ a ∈ p.2.actors, ∀ d ∈ a.dispatcher,
        ∀ tfJ ∈ [2].filterMap (fun i => alget witStore i),
          ∀ x ∈ tfJ.chain_actor_ids, x ∉ d.downstream_actor_id) :=
  drop_table_fragments_spec [2] witStore witStoreAfter []
    (by decide) rfl (by decide)

/-! ## More association-list lemmas for the reschedule claims -/

theorem alget_of_alerase {α : Type} {m : List (Nat × α)} {k k' : Nat} {v : α}
    (h : alget (alerase m k) k' = some v) : alget m k' = some v := by
  by_cases hk : k' = k
  · subst hk; rw [alget_alerase] at h; cases h
  · rwa [alget_alerase_ne m hk] at h

theorem alerase_comm {α : Type} (m : List (Nat × α)) (a b : Nat) :
    alerase (alerase m a) b = alerase (alerase m b) a := by
  simp only [alerase, List.filter_filter]
  congr 1
  funext p
  exact Bool.and_comm _ _

theorem alget_append {α : Type} (m1 m2 : List (Nat × α)) (k : Nat) :
    alget (m1 ++ m2) k
      = match alget m1 k with
        | some v => some v
        | none => alget m2 k := by
  induction m1 with
  | nil => rfl
  | cons p rest ih =>
    by_cases hp : p.1 = k
    · simp [alget, hp]
    · simp [alget, hp, ih]

theorem alinsert_append {α : Type} {m : List (Nat × α)} {k : Nat} (v : α)
    (h : alget m k = none) : alinsert m k v = m ++ [(k, v)] := by
  induction m with
  | nil => rfl
  | cons p rest ih =>
    simp only [alget] at h
    by_cases hp : p.1 = k
    · rw [if_pos hp] at h; cases h
    · rw [if_neg hp] at h
      simp [alinsert, hp, ih h]

theorem foldl_alinsert_append :
    ∀ (us m : List (Nat × ActorStatus)),
      (∀ q ∈ us, alget m q.1 = none) → (us.map (fun q => q.1)).Nodup →
      us.foldl (fun m q => alinsert m q.1 q.2) m = m ++ us := by
  intro us
  induction us with
  | nil => intro m _ _; simp
  | cons q rest ih =>
    intro m hfresh hnd
    simp only [List.map_cons, List.nodup_cons] at hnd
    simp only [List.foldl_cons]
    rw [alinsert_append q.2 (hfresh q (List.mem_cons_self _ _))]
    rw [ih (m ++ [q]) ?_ hnd.2]
    · simp
    · intro q' hq'
      rw [alget_append]
      rw [hfresh q' (List.mem_cons_of_mem _ hq')]
      have hne : q.1 ≠ q'.1 := by
        intro he
        exact hnd.1 (he ▸ List.mem_map_of_mem _ hq')
      simp [alget, hne]

theorem alget_of_mem_nodup {α : Type} {m : List (Nat × α)} {k : Nat} {v : α}
    (hm : (k, v) ∈ m) (hnd : (alkeys m).Nodup) : alget m k = some v := by
  induction m with
  | nil => cases hm
  | cons p rest ih =>
    simp only [alkeys, List.map_cons, List.nodup_cons] at hnd
    rcases List.mem_cons.mp hm with h1 | h1
    · rw [← h1]; simp [alget]
    · have hne : p.1 ≠ k := by
        intro he
        exact hnd.1 (he ▸ List.mem_map_of_mem (fun p => p.1) h1)
      simp only [alget, if_neg hne]
      exact ih h1 hnd.2

theorem mem_createdActorIds {created : CreatedActors}
    {e : Nat × List (Nat × StreamActor × ActorStatus)} (he : e ∈ created)
    {x : Nat} (hx : x ∈ createdGroup e) : x ∈ createdActorIds created :=
  List.mem_flatMap.mpr ⟨e, he, hx⟩

theorem alerase_mem {α : Type} {m : List (Nat × α)} {k : Nat} {e : Nat × α}
    (he : e ∈ alerase m k) : e ∈ m ∧ e.1 ≠ k := by
  have h := List.mem_filter.mp he
  exact ⟨h.1, by simpa using h.2⟩

theorem createdActorIds_alerase_sublist (created : CreatedActors) (k : Nat) :
    (createdActorIds (alerase created k)).Sublist (createdActorIds created) := by
  induction created with
  | nil => exact List.Sublist.refl _
  | cons e rest ih =>
    simp only [alerase, List.filter_cons]
    by_cases hp : e.1 = k
    · rw [if_neg (by simpa using hp)]
      refine List.Sublist.trans ?_ (List.sublist_append_right (createdGroup e) _)
      exact ih
    · rw [if_pos (by simpa using hp)]
      simp only [createdActorIds, List.flatMap_cons]
      exact List.Sublist.append_left ih _

theorem flatMap_groups_disjoint :
    ∀ {created : CreatedActors}, (createdActorIds created).Nodup →
      ∀ e1 ∈ created, ∀ e2 ∈ created, e1 ≠ e2 →
        ∀ x ∈ createdGroup e1, x ∉ createdGroup e2 := by
  intro created
  induction created with
  | nil => intro _ e1 h; cases h
  | cons e rest ih =>
    intro hnd e1 he1 e2 he2 hne x hx1 hx2
    simp only [createdActorIds, List.flatMap_cons, List.nodup_append] at hnd
    rcases List.mem_cons.mp he1 with h1 | h1
    · rcases List.mem_cons.mp he2 with h2 | h2
      · exact hne (h1.trans h2.symm)
      · subst h1
        exact (hnd.2.2 hx1) (mem_createdActorIds h2 hx2)
    · rcases List.mem_cons.mp he2 with h2 | h2
      · subst h2
        exact (hnd.2.2 hx2) (mem_createdActorIds h1 hx1)
      · exact ih hnd.2.1 e1 h1 e2 h2 hne x hx1 hx2

theorem group_nodup_of_mem :
    ∀ {created : CreatedActors}, (createdActorIds created).Nodup →
      ∀ e ∈ created, (createdGroup e).Nodup := by
  intro created
  induction created with
  | nil => intro _ e h; cases h
  | cons e0 rest ih =>
    intro hnd e he
    simp only [createdActorIds, List.flatMap_cons, List.nodup_append] at hnd
    rcases List.mem_cons.mp he with h1 | h1
    · rw [h1]; exact hnd.1
    · exact ih hnd.2.1 e h1

theorem flatMap_erase_disjoint {created : CreatedActors} {k : Nat}
    {fca : List (Nat × StreamActor × ActorStatus)}
    (hnd : (createdActorIds created).Nodup) (hget : alget created k = some fca) :
    ∀ x ∈ fca.map (fun q => q.1), x ∉ createdActorIds (alerase created k) := by
  intro x hx hmem
  obtain ⟨e, he, hxe⟩ := List.mem_flatMap.mp hmem
  obtain ⟨hemem, hek⟩ := alerase_mem he
  have hne : e ≠ (k, fca) := by
    intro heq
    exact hek (by rw [heq])
  exact flatMap_groups_disjoint hnd e hemem (k, fca) (alget_some_mem hget) hne
    x hxe hx

/-! ## Structure of pre_apply_reschedules over one job -/

theorem preApplyFragments_remaining_mem :
    ∀ (fl : List (Nat × Fragment)) (created : CreatedActors),
      ∀ e ∈ (preApplyFragments created fl).2.1, e ∈ created := by
  intro fl
  induction fl with
  | nil => intro created e he; exact he
  | cons p rest ih =>
    intro created e he
    cases hc : alget created p.1 with
    | none =>
      simp only [preApplyFragments, hc] at he
      exact ih created e he
    | some fca =>
      simp only [preApplyFragments, hc] at he
      exact (alerase_mem (ih (alerase created p.1) e he)).1

theorem preApplyFragments_ledger :
    ∀ (fl : List (Nat × Fragment)) (created : CreatedActors),
      ∀ e ∈ (preApplyFragments created fl).2.2.2,
        ∃ fca, alget created e.1 = some fca ∧ e.2 = fca.map (fun q => q.1) ∧
          e.1 ∈ fl.map (fun p => p.1) := by
  intro fl
  induction fl with
  | nil => intro created e he; cases he
  | cons p rest ih =>
    intro created e he
    cases hc : alget created p.1 with
    | none =>
      simp only [preApplyFragments, hc] at he
      obtain ⟨fca, h1, h2, h3⟩ := ih created e he
      exact ⟨fca, h1, h2, List.mem_cons_of_mem _ h3⟩
    | some fca =>
      simp only [preApplyFragments, hc] at he
      rcases List.mem_cons.mp he with h1 | h1
      · subst h1
        exact ⟨fca, hc, rfl, List.mem_cons_self _ _⟩
      · obtain ⟨fca2, h1', h2, h3⟩ := ih (alerase created p.1) e h1
        exact ⟨fca2, alget_of_alerase h1', h2, List.mem_cons_of_mem _ h3⟩

theorem preApplyFragments_agree :
    ∀ (fl : List (Nat × Fragment)) (created : CreatedActors),
      ∀ p ∈ fl, ∀ fca, alget created p.1 = some fca →
        (p.1, fca.map (fun q => q.1)) ∈ (preApplyFragments created fl).2.2.2 := by
  intro fl
  induction fl with
  | nil => intro created p hp; cases hp
  | cons p0 rest ih =>
    intro created p hp fca hget
    cases hc : alget created p0.1 with
    | none =>
      simp only [preApplyFragments, hc]
      rcases List.mem_cons.mp hp with h1 | h1
      · exfalso
        rw [h1] at hget
        rw [hget] at hc
        cases hc
      · exact ih created p h1 fca hget
    | some fca0 =>
      simp only [preApplyFragments, hc]
      by_cases hk : p.1 = p0.1
      · rw [hk] at hget ⊢
        rw [hget] at hc
        injection hc with hcc
        rw [hcc]
        exact List.mem_cons_self _ _
      · have h1 : p ∈ rest := by
          rcases List.mem_cons.mp hp with h2 | h2
          · exact absurd (by rw [h2]) hk
          · exact h2
        refine List.mem_cons_of_mem _ (ih (alerase created p0.1) p h1 fca ?_)
        rw [alget_alerase_ne created hk]
        exact hget

theorem preApplyFragments_consume_dich :
    ∀ (fl : List (Nat × Fragment)) (created : CreatedActors) (fid : Nat),
      (alget created fid).isSome →
      (alget (preApplyFragments created fl).2.1 fid).isSome ∨
        fid ∈ ((preApplyFragments created fl).2.2.2).map (fun e => e.1) := by
  intro fl
  induction fl with
  | nil => intro created fid h; exact Or.inl h
  | cons p rest ih =>
    intro created fid h
    cases hc : alget created p.1 with
    | none =>
      simp only [preApplyFragments, hc]
      exact ih created fid h
    | some fca =>
      simp only [preApplyFragments, hc]
      by_cases hk : fid = p.1
      · subst hk
        exact Or.inr (by simp)
      · have h2 : (alget (alerase created p.1) fid).isSome := by
          rw [alget_alerase_ne created hk]
          exact h
        rcases ih (alerase created p.1) fid h2 with h3 | h3
        · exact Or.inl h3
        · exact Or.inr (by simp only [List.map_cons, List.mem_cons]; exact Or.inr h3)

theorem preApplyFragments_erase_unknown (fid : Nat) :
    ∀ (fl : List (Nat × Fragment)) (created : CreatedActors),
      (∀ p ∈ fl, p.1 ≠ fid) →
      preApplyFragments (alerase created fid) fl
        = ((preApplyFragments created fl).1,
           alerase (preApplyFragments created fl).2.1 fid,
           (preApplyFragments created fl).2.2.1,
           (preApplyFragments created fl).2.2.2) := by
  intro fl
  induction fl with
  | nil => intro created _; rfl
  | cons p rest ih =>
    intro created h
    have hne : p.1 ≠ fid := h p (List.mem_cons_self _ _)
    have hrest : ∀ q ∈ rest, q.1 ≠ fid := fun q hq => h q (List.mem_cons_of_mem _ hq)
    cases hc : alget created p.1 with
    | none =>
      simp only [preApplyFragments, alget_alerase_ne created hne, hc]
      rw [ih created hrest]
    | some fca =>
      simp only [preApplyFragments, alget_alerase_ne created hne, hc]
      rw [alerase_comm created fid p.1]
      rw [ih (alerase created p.1) hrest]

theorem preApplyFragments_us_keys :
    ∀ (fl : List (Nat × Fragment)) (created : CreatedActors),
      ∀ q ∈ (preApplyFragments created fl).2.2.1,
        q.1 ∈ createdActorIds created := by
  intro fl
  induction fl with
  | nil => intro created q hq; cases hq
  | cons p rest ih =>
    intro created q hq
    cases hc : alget created p.1 with
    | none =>
      simp only [preApplyFragments, hc] at hq
      exact ih created q hq
    | some fca =>
      simp only [preApplyFragments, hc] at hq
      rcases List.mem_append.mp hq with h1 | h1
      · obtain ⟨r, hr, hrq⟩ := List.mem_map.mp h1
        refine mem_createdActorIds (alget_some_mem hc) ?_
        rw [← hrq]
        exact List.mem_map_of_mem _ hr
      · have := ih (alerase created p.1) q h1
        exact (createdActorIds_alerase_sublist created p.1).subset this

theorem preApplyFragments_us_nodup :
    ∀ (fl : List (Nat × Fragment)) (created : CreatedActors),
      (createdActorIds created).Nodup →
      (((preApplyFragments created fl).2.2.1).map (fun q => q.1)).Nodup := by
  intro fl
  induction fl with
  | nil => intro created _; exact List.nodup_nil
  | cons p rest ih =>
    intro created hnd
    cases hc : alget created p.1 with
    | none =>
      simp only [preApplyFragments, hc]
      exact ih created hnd
    | some fca =>
      simp only [preApplyFragments, hc]
      rw [List.map_append]
      refine List.Nodup.append ?_ ?_ ?_
      · have hg : ((fca.map (fun q => (q.1, q.2.2))).map (fun q => q.1))
            = fca.map (fun q => q.1) := by
          simp
        rw [hg]
        exact group_nodup_of_mem hnd (p.1, fca) (alget_some_mem hc)
      · exact ih (alerase created p.1)
          ((createdActorIds_alerase_sublist created p.1).nodup hnd)
      · intro x hx1 hx2
        have hx1' : x ∈ fca.map (fun q => q.1) := by
          simpa [List.map_map, Function.comp] using hx1
        obtain ⟨q, hq, hqx⟩ := List.mem_map.mp hx2
        have hx2' : x ∈ createdActorIds (alerase created p.1) := by
          rw [← hqx]
          exact preApplyFragments_us_keys rest (alerase created p.1) q hq
        exact flatMap_erase_disjoint hnd hc x hx1' hx2'

theorem preApplyFragments_ls_nodup :
    ∀ (fl : List (Nat × Fragment)) (created : CreatedActors),
      (((preApplyFragments created fl).2.2.2).map (fun e => e.1)).Nodup ∧
      ∀ e ∈ (preApplyFragments created fl).2.2.2,
        alget (preApplyFragments created fl).2.1 e.1 = none := by
  intro fl
  induction fl with
  | nil => intro created; exact ⟨List.nodup_nil, fun e he => absurd he (List.not_mem_nil e)⟩
  | cons p rest ih =>
    intro created
    cases hc : alget created p.1 with
    | none =>
      simp only [preApplyFragments, hc]
      exact ih created
    | some fca =>
      simp only [preApplyFragments, hc]
      obtain ⟨ihnd, ihnone⟩ := ih (alerase created p.1)
      have habs : alget (preApplyFragments (alerase created p.1) rest).2.1 p.1 = none := by
        cases hv : alget (preApplyFragments (alerase created p.1) rest).2.1 p.1 with
        | none => rfl
        | some v =>
          exfalso
          have hm := preApplyFragments_remaining_mem rest (alerase created p.1) _
            (alget_some_mem hv)
          exact (alerase_mem hm).2 rfl
      constructor
      · rw [List.map_cons]
        refine List.nodup_cons.mpr ⟨?_, ihnd⟩
        intro hmem
        obtain ⟨e, he, hek⟩ := List.mem_map.mp hmem
        obtain ⟨fca2, hget2, _, _⟩ :=
          preApplyFragments_ledger rest (alerase created p.1) e he
        rw [hek, alget_alerase] at hget2
        cases hget2
      · intro e he
        rcases List.mem_cons.mp he with h1 | h1
        · rw [h1]; exact habs
        · exact ihnone e h1

theorem preApplyFragments_remaining_get :
    ∀ (fl : List (Nat × Fragment)) (created : CreatedActors) {k : Nat}
      {v : List (Nat × StreamActor × ActorStatus)},
      alget (preApplyFragments created fl).2.1 k = some v →
      alget created k = some v := by
  intro fl
  induction fl with
  | nil => intro created k v h; exact h
  | cons p rest ih =>
    intro created k v h
    cases hc : alget created p.1 with
    | none =>
      simp only [preApplyFragments, hc] at h
      exact ih created h
    | some fca =>
      simp only [preApplyFragments, hc] at h
      exact alget_of_alerase (ih (alerase created p.1) h)

/-! ## pre_apply_reschedules lemmas lifted to tables and the full store -/

theorem preApplyTable_ledger (created : CreatedActors) (tf : TableFragments) :
    ∀ e ∈ (preApplyTable created tf).2.2,
      ∃ fca, alget created e.1 = some fca ∧ e.2 = fca.map (fun q => q.1) ∧
        e.1 ∈ tf.fragments.map (fun p => p.1) := by
  simp only [preApplyTable]
  exact preApplyFragments_ledger tf.fragments created

theorem preApplyTable_remaining_get (created : CreatedActors) (tf : TableFragments)
    {k : Nat} {v : List (Nat × StreamActor × ActorStatus)}
    (h : alget (preApplyTable created tf).2.1 k = some v) :
    alget created k = some v := by
  simp only [preApplyTable] at h
  exact preApplyFragments_remaining_get tf.fragments created h

theorem preApplyTable_erase_unknown (fid : Nat) (created : CreatedActors)
    (tf : TableFragments) (h : ∀ p ∈ tf.fragments, p.1 ≠ fid) :
    preApplyTable (alerase created fid) tf
      = ((preApplyTable created tf).1,
         alerase (preApplyTable created tf).2.1 fid,
         (preApplyTable created tf).2.2) := by
  simp only [preApplyTable, preApplyFragments_erase_unknown fid tf.fragments created h]

theorem preApplyTable_consume_dich (created : CreatedActors) (tf : TableFragments)
    (fid : Nat) (h : (alget created fid).isSome) :
    (alget (preApplyTable created tf).2.1 fid).isSome ∨
      fid ∈ ((preApplyTable created tf).2.2).map (fun e => e.1) := by
  simp only [preApplyTable]
  exact preApplyFragments_consume_dich tf.fragments created fid h

theorem preApplyReschedules_ledger :
    ∀ (st : FMap) (created : CreatedActors),
      ∀ e ∈ (preApplyReschedules created st).2,
        ∃ fca, alget created e.1 = some fca ∧ e.2 = fca.map (fun q => q.1) ∧
          ∃ pr ∈ st, e.1 ∈ pr.2.fragments.map (fun p => p.1) := by
  intro st
  induction st with
  | nil => intro created e he; cases he
  | cons p rest ih =>
    intro created e he
    simp only [preApplyReschedules] at he
    rcases List.mem_append.mp he with h1 | h1
    · obtain ⟨fca, hg, hv, hm⟩ := preApplyTable_ledger created p.2 e h1
      exact ⟨fca, hg, hv, p, List.mem_cons_self _ _, hm⟩
    · obtain ⟨fca, hg, hv, pr, hpr, hm⟩ := ih (preApplyTable created p.2).2.1 e h1
      exact ⟨fca, preApplyTable_remaining_get created p.2 hg, hv, pr,
        List.mem_cons_of_mem _ hpr, hm⟩

theorem preApplyReschedules_complete :
    ∀ (st : FMap) (created : CreatedActors) (fid : Nat),
      (alget created fid).isSome →
      (∃ pr ∈ st, fid ∈ pr.2.fragments.map (fun p => p.1)) →
      fid ∈ ((preApplyReschedules created st).2).map (fun e => e.1) := by
  intro st
  induction st with
  | nil => intro created fid _ h; obtain ⟨pr, hpr, _⟩ := h; cases hpr
  | cons p rest ih =>
    intro created fid hs hfound
    obtain ⟨pr, hpr, hm⟩ := hfound
    simp only [preApplyReschedules, List.map_append, List.mem_append]
    rcases List.mem_cons.mp hpr with h1 | h1
    · left
      obtain ⟨q, hq, hqk⟩ := List.mem_map.mp hm
      obtain ⟨fca, hfca⟩ := Option.isSome_iff_exists.mp hs
      rw [← hqk] at hfca ⊢
      have := preApplyFragments_agree pr.2.fragments created q hq fca hfca
      rw [h1] at this
      simp only [preApplyTable]
      exact List.mem_map_of_mem _ this
    · rcases preApplyTable_consume_dich created p.2 fid hs with h2 | h2
      · exact Or.inr (ih (preApplyTable created p.2).2.1 fid h2 ⟨pr, h1, hm⟩)
      · exact Or.inl h2

theorem preApplyReschedules_erase_unknown :
    ∀ (st : FMap) (created : CreatedActors) (fid : Nat),
      (∀ pr ∈ st, ∀ p ∈ pr.2.fragments, p.1 ≠ fid) →
      preApplyReschedules (alerase created fid) st
        = preApplyReschedules created st := by
  intro st
  induction st with
  | nil => intro created fid _; rfl
  | cons p rest ih =>
    intro created fid h
    simp only [preApplyReschedules]
    rw [preApplyTable_erase_unknown fid created p.2
      (h p (List.mem_cons_self _ _))]
    rw [ih (preApplyTable created p.2).2.1 fid
      (fun pr hpr => h pr (List.mem_cons_of_mem _ hpr))]

/-! ## Claim C10 -/

/-- Claim C10: `pre_apply_reschedules` silently discards created-actor
entries keyed by fragment ids that exist in no job (removing such an
entry does not change the result at all), every ledger entry corresponds
to a consumed created entry whose fragment id was found in some job and
carries exactly that entry's actor ids, and every created entry whose
fragment id is found in some job does get a ledger entry. -/
theorem pre_apply_reschedules_unknown_spec (st : FMap) (created : CreatedActors)
    (fid : Nat) :
    ((∀ pr ∈ st, ∀ p ∈ pr.2.fragments, p.1 ≠ fid) →
      preApplyReschedules (alerase created fid) st
        = preApplyReschedules created st) ∧
    (∀ e ∈ (preApplyReschedules created st).2,
      ∃ fca, alget created e.1 = some fca ∧ e.2 = fca.map (fun q => q.1) ∧
        ∃ pr ∈ st, e.1 ∈ pr.2.fragments.map (fun p => p.1)) ∧
    ((alget created fid).isSome →
      (∃ pr ∈ st, fid ∈ pr.2.fragments.map (fun p => p.1)) →
      fid ∈ ((preApplyReschedules created st).2).map (fun e => e.1)) :=
  ⟨preApplyReschedules_erase_unknown st created fid,
   preApplyReschedules_ledger st created,
   preApplyReschedules_complete st created fid⟩

/-- Witness for C10: with `witCreated`, entry 99 (no such fragment) is
discarded without any effect, while entry 10 (job 1's sink fragment) is
consumed and appears in the ledger. -/
theorem pre_apply_reschedules_unknown_spec_witness :
    (preApplyReschedules (alerase witCreated 99) witStore
      = preApplyReschedules witCreated witStore) ∧
    (10 ∈ ((preApplyReschedules witCreated witStore).2).map (fun e => e.1)) ∧
    (∀ e ∈ (preApplyReschedules witCreated witStore).2,
      ∃ fca, alget witCreated e.1 = some fca ∧ e.2 = fca.map (fun q => q.1) ∧
        ∃ pr ∈ witStore, e.1 ∈ pr.2.fragments.map (fun p => p.1)) := by
  have h99 := pre_apply_reschedules_unknown_spec witStore witCreated 99
  have h10 := pre_apply_reschedules_unknown_spec witStore witCreated 10
  exact ⟨h99.1 (by decide), h10.2.2 (by decide) (by decide), h99.2.1⟩

/-! ## Claim C5: pre/cancel round trip, fragment level -/

theorem cancel_pre_roundtrip_fragments (ledger : List (Nat × List Nat)) (A : List Nat) :
    ∀ (fl : List (Nat × Fragment)) (created : CreatedActors)
      (status0 : List (Nat × ActorStatus)),
      (∀ p ∈ fl, ∀ a ∈ p.2.actors, a.actor_id ∉ A) →
      (∀ q ∈ status0, q.1 ∉ A) →
      (∀ e ∈ created, ∀ q ∈ e.2, q.1 ∈ A) →
      (∀ e ∈ created, ∀ q ∈ e.2, q.2.1.actor_id = q.1) →
      (createdActorIds created).Nodup →
      (∀ p ∈ fl, ∀ fca, alget created p.1 = some fca →
        alget ledger p.1 = some (fca.map (fun q => q.1))) →
      (∀ fid ids, alget ledger fid = some ids →
        (∀ i ∈ ids, i ∈ A) ∧
        (∀ e ∈ created, e.1 ≠ fid → ∀ i ∈ ids, i ∉ createdGroup e)) →
      cancelApplyFragments ledger (preApplyFragments created fl).1
          (status0 ++ (preApplyFragments created fl).2.2.1)
        = (fl, status0) := by
  intro fl
  induction fl with
  | nil =>
    intro created status0 _ _ _ _ _ _ _
    simp [preApplyFragments, cancelApplyFragments]
  | cons p rest ih =>
    intro created status0 Hfl Hst HcA Hkey Hnd Hagree Hled
    have Hflr : ∀ q ∈ rest, ∀ a ∈ q.2.actors, a.actor_id ∉ A :=
      fun q hq => Hfl q (List.mem_cons_of_mem _ hq)
    cases hc : alget created p.1 with
    | none =>
      simp only [preApplyFragments, hc]
      cases hl : alget ledger p.1 with
      | none =>
        simp only [cancelApplyFragments, hl]
        rw [ih created status0 Hflr Hst HcA Hkey Hnd
          (fun q hq => Hagree q (List.mem_cons_of_mem _ hq)) Hled]
      | some ids =>
        have hids := Hled p.1 ids hl
        have hidsA : ∀ i ∈ ids, i ∈ A := hids.1
        have hdisj : ∀ e ∈ created, ∀ i ∈ ids, i ∉ createdGroup e := by
          intro e he i hi
          refine hids.2 e he ?_ i hi
          intro heq
          have := alget_none_imp hc e he
          exact this heq
        simp only [cancelApplyFragments, hl]
        have hact : p.2.actors.filter (fun a => ! ids.contains a.actor_id)
            = p.2.actors := by
          apply List.filter_eq_self.mpr
          intro a ha
          have : a.actor_id ∉ ids := by
            intro hin
            exact Hfl p (List.mem_cons_self _ _) a ha (hidsA _ hin)
          simpa using this
        have hstat : (status0 ++ (preApplyFragments created rest).2.2.1).filter
              (fun q => ! ids.contains q.1)
            = status0 ++ (preApplyFragments created rest).2.2.1 := by
          apply List.filter_eq_self.mpr
          intro q hq
          rcases List.mem_append.mp hq with h1 | h1
          · have : q.1 ∉ ids := by
              intro hin
              exact Hst q h1 (hidsA _ hin)
            simpa using this
          · have hkin : q.1 ∈ createdActorIds created :=
              preApplyFragments_us_keys rest created q h1
            obtain ⟨e, he, hxe⟩ := List.mem_flatMap.mp hkin
            have : q.1 ∉ ids := by
              intro hin
              exact hdisj e he q.1 hin hxe
            simpa using this
        rw [hstat]
        rw [ih created status0 Hflr Hst HcA Hkey Hnd
          (fun q hq => Hagree q (List.mem_cons_of_mem _ hq)) Hled]
        rw [hact]
    | some fca =>
      simp only [preApplyFragments, hc]
      have hlp : alget ledger p.1 = some (fca.map (fun q => q.1)) :=
        Hagree p (List.mem_cons_self _ _) fca hc
      simp only [cancelApplyFragments, hlp]
      have hmemc : (p.1, fca) ∈ created := alget_some_mem hc
      have hgA : ∀ i ∈ fca.map (fun q => q.1), i ∈ A := by
        intro i hi
        obtain ⟨q, hq, hqi⟩ := List.mem_map.mp hi
        exact hqi ▸ HcA (p.1, fca) hmemc q hq
      have hact : ((p.2.actors ++ fca.map (fun q => q.2.1)).filter
            (fun a => ! (fca.map (fun q => q.1)).contains a.actor_id))
          = p.2.actors := by
        rw [List.filter_append]
        have h1 : p.2.actors.filter
            (fun a => ! (fca.map (fun q => q.1)).contains a.actor_id)
            = p.2.actors := by
          apply List.filter_eq_self.mpr
          intro a ha
          have : a.actor_id ∉ fca.map (fun q => q.1) := by
            intro hin
            exact Hfl p (List.mem_cons_self _ _) a ha (hgA _ hin)
          simpa using this
        have h2 : (fca.map (fun q => q.2.1)).filter
            (fun a => ! (fca.map (fun q => q.1)).contains a.actor_id)
            = [] := by
          simp only [List.filter_eq_nil_iff]
          intro a ha
          obtain ⟨q, hq, hqa⟩ := List.mem_map.mp ha
          have : a.actor_id ∈ fca.map (fun q => q.1) := by
            rw [← hqa, Hkey (p.1, fca) hmemc q hq]
            exact List.mem_map_of_mem _ hq
          simpa using this
        rw [h1, h2, List.append_nil]
      have hstat : ((status0 ++ (fca.map (fun q => (q.1, q.2.2))
              ++ (preApplyFragments (alerase created p.1) rest).2.2.1)).filter
            (fun q => ! (fca.map (fun q => q.1)).contains q.1))
          = status0 ++ (preApplyFragments (alerase created p.1) rest).2.2.1 := by
        rw [List.filter_append, List.filter_append]
        have h1 : status0.filter
            (fun q => ! (fca.map (fun q => q.1)).contains q.1) = status0 := by
          apply List.filter_eq_self.mpr
          intro q hq
          have : q.1 ∉ fca.map (fun q => q.1) := by
            intro hin
            exact Hst q hq (hgA _ hin)
          simpa using this
        have h2 : ((fca.map (fun q => (q.1, q.2.2))).filter
            (fun q => ! (fca.map (fun q => q.1)).contains q.1)) = [] := by
          simp only [List.filter_eq_nil_iff]
          intro q hq
          obtain ⟨r, hr, hrq⟩ := List.mem_map.mp hq
          have : q.1 ∈ fca.map (fun q => q.1) := by
            rw [← hrq]
            exact List.mem_map_of_mem _ hr
          simpa using this
        have h3 : ((preApplyFragments (alerase created p.1) rest).2.2.1.filter
            (fun q => ! (fca.map (fun q => q.1)).contains q.1))
            = (preApplyFragments (alerase created p.1) rest).2.2.1 := by
          apply List.filter_eq_self.mpr
          intro q hq
          have hkin : q.1 ∈ createdActorIds (alerase created p.1) :=
            preApplyFragments_us_keys rest (alerase created p.1) q hq
          have : q.1 ∉ fca.map (fun q => q.1) := by
            intro hin
            exact flatMap_erase_disjoint Hnd hc q.1 hin hkin
          simpa using this
        rw [h1, h2, h3, List.nil_append]
      rw [hstat]
      rw [ih (alerase created p.1) status0 Hflr Hst
        (fun e he => HcA e (alerase_mem he).1)
        (fun e he => Hkey e (alerase_mem he).1)
        ((createdActorIds_alerase_sublist created p.1).nodup Hnd)
        (fun q hq fca2 hget2 =>
          Hagree q (List.mem_cons_of_mem _ hq) fca2 (alget_of_alerase hget2))
        (fun fid ids hl2 =>
          ⟨(Hled fid ids hl2).1,
           fun e he => (Hled fid ids hl2).2 e (alerase_mem he).1⟩)]
      rw [hact]

/-! ## Claim C5: pre/cancel round trip, table and store level -/

theorem preApplyFragments_remaining_sublist :
    ∀ (fl : List (Nat × Fragment)) (created : CreatedActors),
      (createdActorIds (preApplyFragments created fl).2.1).Sublist
        (createdActorIds created) := by
  intro fl
  induction fl with
  | nil => intro created; exact List.Sublist.refl _
  | cons p rest ih =>
    intro created
    cases hc : alget created p.1 with
    | none =>
      simp only [preApplyFragments, hc]
      exact ih created
    | some fca =>
      simp only [preApplyFragments, hc]
      exact (ih (alerase created p.1)).trans
        (createdActorIds_alerase_sublist created p.1)

theorem cancel_pre_roundtrip_table (ledger : List (Nat × List Nat)) (A : List Nat)
    (created : CreatedActors) (tf : TableFragments)
    (Hfl : ∀ p ∈ tf.fragments, ∀ a ∈ p.2.actors, a.actor_id ∉ A)
    (Hst : ∀ q ∈ tf.actor_status, q.1 ∉ A)
    (HcA : ∀ e ∈ created, ∀ q ∈ e.2, q.1 ∈ A)
    (Hkey : ∀ e ∈ created, ∀ q ∈ e.2, q.2.1.actor_id = q.1)
    (Hnd : (createdActorIds created).Nodup)
    (Hagree : ∀ p ∈ tf.fragments, ∀ fca, alget created p.1 = some fca →
      alget ledger p.1 = some (fca.map (fun q => q.1)))
    (Hled : ∀ fid ids, alget ledger fid = some ids →
      (∀ i ∈ ids, i ∈ A) ∧
      (∀ e ∈ created, e.1 ≠ fid → ∀ i ∈ ids, i ∉ createdGroup e)) :
    cancelApplyTable ledger (preApplyTable created tf).1 = tf := by
  have husA : ∀ q ∈ (preApplyFragments created tf.fragments).2.2.1, q.1 ∈ A := by
    intro q hq
    obtain ⟨e, he, hxe⟩ := List.mem_flatMap.mp
      (preApplyFragments_us_keys tf.fragments created q hq)
    obtain ⟨r, hr, hrq⟩ := List.mem_map.mp hxe
    exact hrq ▸ HcA e he r hr
  have hfold : (preApplyFragments created tf.fragments).2.2.1.foldl
      (fun m q => alinsert m q.1 q.2) tf.actor_status
      = tf.actor_status ++ (preApplyFragments created tf.fragments).2.2.1 := by
    apply foldl_alinsert_append
    · intro q hq
      apply alget_eq_none
      intro r hr hreq
      exact Hst r hr (hreq ▸ husA q hq)
    · exact preApplyFragments_us_nodup tf.fragments created Hnd
  simp only [cancelApplyTable, preApplyTable]
  rw [hfold]
  rw [cancel_pre_roundtrip_fragments ledger A tf.fragments created
    tf.actor_status Hfl Hst HcA Hkey Hnd Hagree Hled]

theorem preApplyTable_remaining_mem (created : CreatedActors) (tf : TableFragments) :
    ∀ e ∈ (preApplyTable created tf).2.1, e ∈ created := by
  simp only [preApplyTable]
  exact preApplyFragments_remaining_mem tf.fragments created

theorem preApplyTable_remaining_sublist (created : CreatedActors) (tf : TableFragments) :
    (createdActorIds (preApplyTable created tf).2.1).Sublist
      (createdActorIds created) := by
  simp only [preApplyTable]
  exact preApplyFragments_remaining_sublist tf.fragments created

theorem preApplyTable_ls_nodup (created : CreatedActors) (tf : TableFragments) :
    (((preApplyTable created tf).2.2).map (fun e => e.1)).Nodup ∧
    ∀ e ∈ (preApplyTable created tf).2.2,
      alget (preApplyTable created tf).2.1 e.1 = none := by
  simp only [preApplyTable]
  exact preApplyFragments_ls_nodup tf.fragments created

theorem preApplyReschedules_ls_nodup :
    ∀ (st : FMap) (created : CreatedActors),
      (((preApplyReschedules created st).2).map (fun e => e.1)).Nodup := by
  intro st
  induction st with
  | nil => intro created; exact List.nodup_nil
  | cons p rest ih =>
    intro created
    simp only [preApplyReschedules, List.map_append]
    refine List.Nodup.append (preApplyTable_ls_nodup created p.2).1
      (ih (preApplyTable created p.2).2.1) ?_
    intro fid h1 h2
    obtain ⟨e1, he1, hk1⟩ := List.mem_map.mp h1
    obtain ⟨e2, he2, hk2⟩ := List.mem_map.mp h2
    obtain ⟨fca, hget, _, _⟩ :=
      preApplyReschedules_ledger rest (preApplyTable created p.2).2.1 e2 he2
    have hnone := (preApplyTable_ls_nodup created p.2).2 e1 he1
    rw [hk1] at hnone
    rw [hk2] at hget
    rw [hnone] at hget
    cases hget

theorem cancel_pre_roundtrip_aux (A : List Nat) :
    ∀ (st : FMap) (created : CreatedActors) (ledger : List (Nat × List Nat)),
      (∀ pr ∈ st,
        (∀ p ∈ pr.2.fragments, ∀ a ∈ p.2.actors, a.actor_id ∉ A) ∧
        (∀ q ∈ pr.2.actor_status, q.1 ∉ A)) →
      (∀ e ∈ created, ∀ q ∈ e.2, q.1 ∈ A) →
      (∀ e ∈ created, ∀ q ∈ e.2, q.2.1.actor_id = q.1) →
      (createdActorIds created).Nodup →
      (∀ e ∈ (preApplyReschedules created st).2, alget ledger e.1 = some e.2) →
      (∀ fid ids, alget ledger fid = some ids →
        (∀ i ∈ ids, i ∈ A) ∧
        (∀ e ∈ created, e.1 ≠ fid → ∀ i ∈ ids, i ∉ createdGroup e)) →
      cancelApplyReschedules ledger (preApplyReschedules created st).1 = st := by
  intro st
  induction st with
  | nil => intro created ledger _ _ _ _ _ _; rfl
  | cons p rest ih =>
    intro created ledger Hfresh HcA Hkey Hnd HagreeL HledL
    simp only [preApplyReschedules, cancelApplyReschedules, List.map_cons]
    have hhead : cancelApplyTable ledger (preApplyTable created p.2).1 = p.2 := by
      refine cancel_pre_roundtrip_table ledger A created p.2
        (Hfresh p (List.mem_cons_self _ _)).1
        (Hfresh p (List.mem_cons_self _ _)).2
        HcA Hkey Hnd ?_ HledL
      intro q hq fca hget
      have hmem := preApplyFragments_agree p.2.fragments created q hq fca hget
      refine HagreeL (q.1, fca.map (fun r => r.1)) ?_
      simp only [preApplyReschedules, List.mem_append]
      left
      simpa only [preApplyTable] using hmem
    have htail : cancelApplyReschedules ledger
        (preApplyReschedules (preApplyTable created p.2).2.1 rest).1 = rest := by
      refine ih (preApplyTable created p.2).2.1 ledger
        (fun pr hpr => Hfresh pr (List.mem_cons_of_mem _ hpr))
        (fun e he => HcA e (preApplyTable_remaining_mem created p.2 e he))
        (fun e he => Hkey e (preApplyTable_remaining_mem created p.2 e he))
        ((preApplyTable_remaining_sublist created p.2).nodup Hnd)
        ?_ ?_
      · intro e he
        refine HagreeL e ?_
        simp only [preApplyReschedules, List.mem_append]
        exact Or.inr he
      · intro fid ids hl
        exact ⟨(HledL fid ids hl).1,
          fun e he => (HledL fid ids hl).2 e
            (preApplyTable_remaining_mem created p.2 e he)⟩
    rw [hhead]
    simp only [cancelApplyReschedules] at htail
    rw [htail]

/-- Claim C5 (amended): provided each created entry's actor carries the
entry's actor id, the created actor ids are pairwise distinct, and none
of them occurs anywhere in the store, `cancel_apply_reschedules` of the
ledger returned by `pre_apply_reschedules` restores the store exactly. -/
theorem cancel_pre_apply_roundtrip (st : FMap) (created : CreatedActors)
    (Hfresh : ∀ pr ∈ st,
      (∀ p ∈ pr.2.fragments, ∀ a ∈ p.2.actors,
        a.actor_id ∉ createdActorIds created) ∧
      (∀ q ∈ pr.2.actor_status, q.1 ∉ createdActorIds created))
    (Hkey : ∀ e ∈ created, ∀ q ∈ e.2, q.2.1.actor_id = q.1)
    (Hnd : (createdActorIds created).Nodup) :
    cancelApplyReschedules (preApplyReschedules created st).2
      (preApplyReschedules created st).1 = st := by
  refine cancel_pre_roundtrip_aux (createdActorIds created) st created
    (preApplyReschedules created st).2 Hfresh
    (fun e he q hq => mem_createdActorIds he (List.mem_map_of_mem _ hq))
    Hkey Hnd ?_ ?_
  · intro e he
    exact alget_of_mem_nodup he (preApplyReschedules_ls_nodup st created)
  · intro fid ids hl
    obtain ⟨fca, hget, hv, _⟩ := preApplyReschedules_ledger st created
      (fid, ids) (alget_some_mem hl)
    have hmemc : (fid, fca) ∈ created := alget_some_mem hget
    have hv2 : ids = fca.map (fun q => q.1) := hv
    constructor
    · intro i hi
      rw [hv2] at hi
      obtain ⟨q, hq, hqi⟩ := List.mem_map.mp hi
      exact hqi ▸ mem_createdActorIds hmemc (List.mem_map_of_mem _ hq)
    · intro e he hne i hi
      have hne2 : (fid, fca) ≠ e := by
        intro heq
        exact hne (by rw [← heq])
      refine flatMap_groups_disjoint Hnd (fid, fca) hmemc e he hne2 i ?_
      rw [hv2] at hi
      exact hi

/-- Counterexample for C5 as stated: when a created actor id collides
with an existing actor (id 100 of fragment 1), `cancel ∘ pre` also
removes the pre-existing actor and its status, so the round trip does
not restore the store. -/
theorem cancel_pre_roundtrip_counterexample :
    cancelApplyReschedules (preApplyReschedules witClashCreated witClashStore).2
      (preApplyReschedules witClashCreated witClashStore).1 ≠ witClashStore := by
  decide

/-- Witness for the amended C5: the fresh ids 300 and 301 appear nowhere
in `witStore`, so the round trip is the identity. -/
theorem cancel_pre_apply_roundtrip_witness :
    cancelApplyReschedules (preApplyReschedules witCreated witStore).2
      (preApplyReschedules witCreated witStore).1 = witStore :=
  cancel_pre_apply_roundtrip witStore witCreated (by decide) (by decide) (by decide)

/-! ## Claims C6/C7: migration -/

theorem migrateStep_pumap_mono {mm : List (Nat × Nat)} {q : Nat × ActorStatus}
    {pumap : List (Nat × ParallelUnit)} {free : List (Nat × List ParallelUnit)}
    {r} (h : migrateStep mm q pumap free = Except.ok r) :
    ∀ k v, alget pumap k = some v → alget r.2.1 k = some v := by
  intro k v hv
  rw [migrateStep] at h
  split at h
  · cases h; exact hv
  · next w hmm =>
      split at h
      · cases h; exact hv
      · next old_pu hpu =>
          split at h
          · cases h; exact hv
          · next hvac =>
              split at h
              · cases h
              · next pool hpool =>
                  split at h
                  · cases h
                  · next npu hlast =>
                      cases h
                      have hk : k ≠ old_pu.id := by
                        intro he
                        rw [he, hvac] at hv
                        cases hv
                      rw [alget_alinsert_ne pumap _ hk]
                      exact hv

theorem migrateStatusList_pumap_mono {mm : List (Nat × Nat)} :
    ∀ {entries : List (Nat × ActorStatus)} {pumap free r},
      migrateStatusList mm entries pumap free = Except.ok r →
      ∀ k v, alget pumap k = some v → alget r.2.1 k = some v := by
  intro entries
  induction entries with
  | nil => intro pumap free r h k v hv; cases h; exact hv
  | cons q rest ih =>
    intro pumap free r h k v hv
    rw [migrateStatusList] at h
    split at h
    · cases h
    · next r1 heq =>
        split at h
        · cases h
        · next r2 heq2 =>
            cases h
            exact ih heq2 k v (migrateStep_pumap_mono heq k v hv)

theorem migrateTables_pumap_mono {mm : List (Nat × Nat)} :
    ∀ {tfs : List TableFragments} {pumap free r},
      migrateTables mm tfs pumap free = Except.ok r →
      ∀ k v, alget pumap k = some v → alget r.2.2.1 k = some v := by
  intro tfs
  induction tfs with
  | nil => intro pumap free r h k v hv; cases h; exact hv
  | cons tf rest ih =>
    intro pumap free r h k v hv
    rw [migrateTables] at h
    split at h
    · cases h
    · next r1 heq =>
        split at h
        · cases h
        · next r2 heq2 =>
            cases h
            exact ih heq2 k v (migrateStatusList_pumap_mono heq k v hv)

theorem migrateStatusList_spec {mm : List (Nat × Nat)} :
    ∀ {entries : List (Nat × ActorStatus)} {pumap free r},
      migrateStatusList mm entries pumap free = Except.ok r →
      ∀ (pumapF : List (Nat × ParallelUnit)),
        (∀ k v, alget r.2.1 k = some v → alget pumapF k = some v) →
        List.Forall₂ (MigratedEntry mm pumapF) entries r.1 := by
  intro entries
  induction entries with
  | nil =>
    intro pumap free r h pumapF _
    cases h
    exact List.Forall₂.nil
  | cons q rest ih =>
    intro pumap free r h pumapF hext
    rw [migrateStatusList] at h
    split at h
    · cases h
    · next r1 heq =>
        split at h
        · cases h
        · next r2 heq2 =>
            cases h
            refine List.Forall₂.cons ?_ (ih heq2 pumapF hext)
            have hmono : ∀ k v, alget r1.2.1 k = some v → alget pumapF k = some v :=
              fun k v hv => hext k v (migrateStatusList_pumap_mono heq2 k v hv)
            rw [migrateStep] at heq
            split at heq
            · next hmm =>
                cases heq
                refine ⟨rfl, ?_, fun _ => rfl⟩
                intro w hw
                rw [hmm] at hw
                cases hw
            · next w hmm =>
                split at heq
                · next hpu =>
                    cases heq
                    refine ⟨rfl, ?_, fun _ => rfl⟩
                    intro w2 _ old hold
                    rw [hpu] at hold
                    cases hold
                · next old_pu hpu =>
                    split at heq
                    · next npu hrec =>
                        cases heq
                        refine ⟨rfl, ?_, ?_⟩
                        · intro w2 _ old hold
                          rw [hpu] at hold
                          injection hold with hoo
                          subst hoo
                          exact ⟨npu, hmono _ _ hrec, rfl⟩
                        · intro hcon
                          rcases hcon with h1 | h1
                          · rw [hmm] at h1; cases h1
                          · rw [hpu] at h1; cases h1
                    · next hvac =>
                        split at heq
                        · cases heq
                        · next pool hpool =>
                            split at heq
                            · cases heq
                            · next npu hlast =>
                                cases heq
                                refine ⟨rfl, ?_, ?_⟩
                                · intro w2 _ old hold
                                  rw [hpu] at hold
                                  injection hold with hoo
                                  subst hoo
                                  refine ⟨npu, hmono _ _ ?_, rfl⟩
                                  exact alget_alinsert_self pumap _ _
                                · intro hcon
                                  rcases hcon with h1 | h1
                                  · rw [hmm] at h1; cases h1
                                  · rw [hpu] at h1; cases h1

theorem migrateTables_spec {mm : List (Nat × Nat)} :
    ∀ {tfs : List TableFragments} {pumap free r},
      migrateTables mm tfs pumap free = Except.ok r →
      List.Forall₂ (fun tf pr => ∃ out,
        pr.1 = { tf with actor_status := out } ∧
          List.Forall₂ (MigratedEntry mm r.2.2.1) tf.actor_status out)
        tfs r.1 := by
  intro tfs
  induction tfs with
  | nil => intro pumap free r h; cases h; exact List.Forall₂.nil
  | cons tf rest ih =>
    intro pumap free r h
    rw [migrateTables] at h
    split at h
    · cases h
    · next r1 heq =>
        split at h
        · cases h
        · next r2 heq2 =>
            cases h
            refine List.Forall₂.cons ⟨r1.1, rfl, ?_⟩ (ih heq2)
            exact migrateStatusList_spec heq _
              (fun k v hv => migrateTables_pumap_mono heq2 k v hv)

/-- Claim C6: the migration step reuses the recorded new parallel unit
for an already-seen old unit id, pops (from the back) and records a
fresh unit otherwise, and leaves unmigrated actors untouched; over a
whole run, every migrated actor ends on the unit recorded under its old
unit id in the final map — so actors sharing one old unit id share the
new one. -/
theorem migrate_actors_spec (mm : List (Nat × Nat)) :
    (∀ (q : Nat × ActorStatus) pumap free, alget mm q.1 = none →
        migrateStep mm q pumap free = Except.ok (q, pumap, free, false)) ∧
    (∀ (q : Nat × ActorStatus) pumap free w, alget mm q.1 = some w →
        q.2.parallel_unit = none →
        migrateStep mm q pumap free = Except.ok (q, pumap, free, false)) ∧
    (∀ (q : Nat × ActorStatus) pumap free w old npu, alget mm q.1 = some w →
        q.2.parallel_unit = some old → alget pumap old.id = some npu →
        migrateStep mm q pumap free
          = Except.ok ((q.1, { q.2 with parallel_unit := some npu }),
              pumap, free, true)) ∧
    (∀ (q : Nat × ActorStatus) pumap free w old pool npu, alget mm q.1 = some w →
        q.2.parallel_unit = some old → alget pumap old.id = none →
        alget free w = some pool → pool.getLast? = some npu →
        migrateStep mm q pumap free
          = Except.ok ((q.1, { q.2 with parallel_unit := some npu }),
              alinsert pumap old.id npu, alinsert free w pool.dropLast, true)) ∧
    (∀ (tfs : List TableFragments) pumap free r,
        migrateTables mm tfs pumap free = Except.ok r →
        List.Forall₂ (fun tf pr => ∃ out,
          pr.1 = { tf with actor_status := out } ∧
            List.Forall₂ (MigratedEntry mm r.2.2.1) tf.actor_status out)
          tfs r.1) ∧
    (∀ (pumapF : List (Nat × ParallelUnit)) (q1i q1o q2i q2o : Nat × ActorStatus)
        (w1 w2 : Nat) (old1 old2 : ParallelUnit),
        MigratedEntry mm pumapF q1i q1o → MigratedEntry mm pumapF q2i q2o →
        alget mm q1i.1 = some w1 → q1i.2.parallel_unit = some old1 →
        alget mm q2i.1 = some w2 → q2i.2.parallel_unit = some old2 →
        old1.id = old2.id →
        q1o.2.parallel_unit = q2o.2.parallel_unit) := by
  refine ⟨?_, ?_, ?_, ?_, ?_, ?_⟩
  · intro q pumap free h
    simp [migrateStep, h]
  · intro q pumap free w h hpu
    simp [migrateStep, h, hpu]
  · intro q pumap free w old npu h hpu hrec
    simp [migrateStep, h, hpu, hrec]
  · intro q pumap free w old pool npu h hpu hvac hpool hlast
    simp [migrateStep, h, hpu, hvac, hpool, hlast]
  · intro tfs pumap free r h
    exact migrateTables_spec h
  · intro pumapF q1i q1o q2i q2o w1 w2 old1 old2 h1 h2 hm1 hp1 hm2 hp2 hid
    obtain ⟨npu1, hr1, he1⟩ := h1.2.1 w1 hm1 old1 hp1
    obtain ⟨npu2, hr2, he2⟩ := h2.2.1 w2 hm2 old2 hp2
    rw [hid] at hr1
    rw [hr1] at hr2
    injection hr2 with hnn
    rw [he1, he2, hnn]

/-- Witness for C6: migrating actors 1 and 2 from worker 1 to worker 2
pops units 24 then 23 from worker 2's pool and records them under the
old unit ids 11 and 12. -/
theorem migrate_actors_spec_witness :
    List.Forall₂ (fun tf pr => ∃ out,
        pr.1 = { tf with actor_status := out } ∧
          List.Forall₂ (MigratedEntry [(1, 2), (2, 2)] witMigPumap)
            tf.actor_status out)
      [witMigTf]
      [({ witMigTf with actor_status := witMigOut }, true)] ∧
    migrateStep [(1, 2), (2, 2)] (2, ⟨ActorState.running, some ⟨12, 1⟩⟩)
        [(11, ⟨24, 2⟩)] [(2, [⟨23, 2⟩])]
      = Except.ok ((2, ⟨ActorState.running, some ⟨23, 2⟩⟩),
          [(11, ⟨24, 2⟩), (12, ⟨23, 2⟩)], [(2, [])], true) := by
  have h := migrate_actors_spec [(1, 2), (2, 2)]
  constructor
  · exact h.2.2.2.2.1 [witMigTf] [] [(2, [⟨23, 2⟩, ⟨24, 2⟩])]
      ([({ witMigTf with actor_status := witMigOut }, true)],
        [{ witMigTf with actor_status := witMigOut }], witMigPumap, [(2, [])])
      rfl
  · exact h.2.2.2.1 (2, ⟨ActorState.running, some ⟨12, 1⟩⟩)
      [(11, ⟨24, 2⟩)] [(2, [⟨23, 2⟩])] 2 ⟨12, 1⟩ [⟨23, 2⟩] ⟨23, 2⟩
      rfl rfl rfl rfl rfl

/-- Claim C7 (amended): exhausting a target worker's free pool — or
naming a worker absent from the node map — makes `migrate_actors` fail
by panicking (`unwrap` on the pool lookup and pop), not by returning a
`NoCapacity` error value. -/
theorem migrate_no_capacity_panics (mm : List (Nat × Nat))
    (q : Nat × ActorStatus) (pumap : List (Nat × ParallelUnit))
    (free : List (Nat × List ParallelUnit)) (w : Nat) (old : ParallelUnit)
    (hm : alget mm q.1 = some w) (hp : q.2.parallel_unit = some old)
    (hvac : alget pumap old.id = none)
    (hpool : alget free w = none ∨ alget free w = some []) :
    migrateStep mm q pumap free = Except.error MetaErr.panicked := by
  rcases hpool with h1 | h1
  · simp [migrateStep, hm, hp, hvac, h1]
  · simp [migrateStep, hm, hp, hvac, h1]

/-- Witness for the amended C7 at a concrete exhausted pool. -/
theorem migrate_no_capacity_panics_witness :
    migrateStep [(7, 2)] (7, ⟨ActorState.running, some ⟨11, 1⟩⟩) [] [(2, [])]
      = Except.error MetaErr.panicked :=
  migrate_no_capacity_panics [(7, 2)] (7, ⟨ActorState.running, some ⟨11, 1⟩⟩)
    [] [(2, [])] 2 ⟨11, 1⟩ rfl rfl rfl (Or.inr rfl)

/-- Counterexample for C7 as stated: with the pool of worker 2 empty,
the whole `migrate_actors` call fails with a panic, and in particular
does not return a `NoCapacity` error for any worker. -/
theorem migrate_no_capacity_counterexample :
    (migrateActors [(7, 2)] [(2, [])]
        [(1, ⟨1, JobState.created, [],
          [(7, ⟨ActorState.running, some ⟨11, 1⟩⟩)], []⟩)] true).2
      = Except.error MetaErr.panicked ∧
    ∀ w, (migrateActors [(7, 2)] [(2, [])]
        [(1, ⟨1, JobState.created, [],
          [(7, ⟨ActorState.running, some ⟨11, 1⟩⟩)], []⟩)] true).2
      ≠ Except.error (MetaErr.noCapacity w) := by
  constructor
  · rfl
  · intro w h
    have h2 : Except.error (α := List Notif) MetaErr.panicked
        = Except.error (MetaErr.noCapacity w) := by
      rw [← h]
      rfl
    injection h2 with h3
    cases h3

/-! ## Claim C8: post_create_table_fragments error behavior -/

theorem postCreateDeps_missing (id0 : Nat) (st : FMap) :
    ∀ (deps : List (Nat × List (Nat × List Dispatcher))) (t : Txn),
      t.tree = st →
      (∀ k, (alget t.staged k).isSome → (alget st k).isSome ∨ k = id0) →
      (∃ d ∈ deps, d.1 ≠ id0 ∧ alget st d.1 = none) →
      ∃ d2, postCreateDeps deps t = Except.error (MetaErr.notFound d2) := by
  intro deps
  induction deps with
  | nil =>
    intro t _ _ hmiss
    obtain ⟨d, hd, _⟩ := hmiss
    cases hd
  | cons d rest ih =>
    intro t htree hstaged hmiss
    cases hview : t.get d.1 with
    | none => exact ⟨d.1, by simp [postCreateDeps, hview]⟩
    | some dtf =>
      simp only [postCreateDeps, hview]
      obtain ⟨dm, hdm, hne, hnone⟩ := hmiss
      rcases List.mem_cons.mp hdm with h1 | h1
      · exfalso
        subst h1
        rw [Txn.get] at hview
        cases hs : alget t.staged dm.1 with
        | none =>
          rw [hs, htree, hnone] at hview
          cases hview
        | some o =>
          rcases hstaged dm.1 (by rw [hs]; rfl) with h2 | h2
          · rw [hnone] at h2; cases h2
          · exact hne h2
      · refine ih (t.insert d.1 (extendDispatchers d.2 dtf)) htree ?_
          ⟨dm, h1, hne, hnone⟩
        intro k hk
        by_cases hkd : k = d.1
        · have hone : (alget st d.1).isSome ∨ d.1 = id0 := by
            cases hs : alget t.staged d.1 with
            | none =>
              have h3 : t.get d.1 = alget t.tree d.1 := by
                rw [Txn.get, hs]
              rw [h3, htree] at hview
              exact Or.inl (by rw [hview]; rfl)
            | some o =>
              exact hstaged d.1 (by rw [hs]; rfl)
          rw [hkd]
          exact hone
        · refine hstaged k ?_
          simp only [Txn.insert] at hk
          rwa [alget_alinsert_ne t.staged _ hkd] at hk

/-- Claim C8 (amended): `post_create_table_fragments` returns JobNotFound
when the target id is absent or any dependent id is absent from the
store; but when the target exists with state ≠ Creating it panics
(`assert_eq!` in the source) instead of returning an IllegalState error. -/
theorem post_create_error_spec (table_id : Nat)
    (deps : List (Nat × List (Nat × List Dispatcher)))
    (sa : SplitAssignment) (st : FMap) (storeOk : Bool) :
    (alget st table_id = none →
      postCreateTableFragments table_id deps sa st storeOk
        = (st, Except.error (MetaErr.notFound table_id))) ∧
    (∀ tf, alget st table_id = some tf → tf.state ≠ JobState.creating →
      postCreateTableFragments table_id deps sa st storeOk
        = (st, Except.error MetaErr.panicked)) ∧
    (∀ tf, alget st table_id = some tf → tf.state = JobState.creating →
      (∃ d ∈ deps, d.1 ≠ table_id ∧ alget st d.1 = none) →
      ∃ d2, (postCreateTableFragments table_id deps sa st storeOk).2
        = Except.error (MetaErr.notFound d2)) := by
  refine ⟨?_, ?_, ?_⟩
  · intro h
    simp [postCreateTableFragments, h]
  · intro tf h hstate
    simp [postCreateTableFragments, h, hstate]
  · intro tf h hstate hmiss
    obtain ⟨d2, hd2⟩ := postCreateDeps_missing table_id st deps
      ((Txn.new st).insert table_id
        ((tf.update_actors_state
          ActorState.running).set_actor_splits_by_split_assignment sa))
      rfl
      (by
        intro k hk
        simp only [Txn.insert, Txn.new] at hk
        by_cases hkt : k = table_id
        · exact Or.inr hkt
        · rw [alget_alinsert_ne _ _ hkt] at hk
          cases hk)
      hmiss
    refine ⟨d2, ?_⟩
    simp [postCreateTableFragments, h, hstate, hd2]

/-- Witness for the amended C8 at concrete inputs: absent target id 5;
target 1 in state Created (panic); target 1 Creating with absent
dependent 9. -/
theorem post_create_error_spec_witness :
    (postCreateTableFragments 5 [] [] [] true
      = ([], Except.error (MetaErr.notFound 5))) ∧
    (postCreateTableFragments 1 [] []
        [(1, ⟨1, JobState.created, [], [], []⟩)] true
      = ([(1, ⟨1, JobState.created, [], [], []⟩)],
         Except.error MetaErr.panicked)) ∧
    (∃ d2, (postCreateTableFragments 1 [(9, [])] []
        [(1, ⟨1, JobState.creating, [], [], []⟩)] true).2
      = Except.error (MetaErr.notFound d2)) := by
  refine ⟨?_, ?_, ?_⟩
  · exact (post_create_error_spec 5 [] [] [] true).1 rfl
  · exact (post_create_error_spec 1 [] []
      [(1, ⟨1, JobState.created, [], [], []⟩)] true).2.1
      ⟨1, JobState.created, [], [], []⟩ rfl (by decide)
  · exact (post_create_error_spec 1 [(9, [])] []
      [(1, ⟨1, JobState.creating, [], [], []⟩)] true).2.2
      ⟨1, JobState.creating, [], [], []⟩ rfl rfl
      ⟨(9, []), List.mem_cons_self _ _, by decide, rfl⟩

/-- Counterexample for C8 as stated: a target job in state Created makes
the call panic; no IllegalState error value is returned. -/
theorem post_create_illegal_state_counterexample :
    (postCreateTableFragments 1 [] []
        [(1, ⟨1, JobState.created, [], [], []⟩)] true).2
      = Except.error MetaErr.panicked ∧
    (postCreateTableFragments 1 [] []
        [(1, ⟨1, JobState.created, [], [], []⟩)] true).2
      ≠ Except.error MetaErr.illegalState := by
  constructor
  · rfl
  · intro h
    have h2 : Except.error (α := List Notif) MetaErr.panicked
        = Except.error MetaErr.illegalState := by rw [← h]; rfl
    injection h2 with h3
    cases h3

/-! ## Claim C4: upstream dispatcher updates in post_apply_reschedules -/

theorem mapME_patchDispatcher {m : Option ActorMapping} {did : Nat}
    {rm cr : List Nat} :
    ∀ {ds ds2 : List Dispatcher}, mapME (patchDispatcher m did rm cr) ds
        = Except.ok ds2 →
      ds2 = ds.map (c4ExpectedDispatcher m did rm cr) ∧
      ∀ d ∈ ds, d.dispatcher_id = did →
        updateActorsOk d.downstream_actor_id rm cr = true := by
  intro ds
  induction ds with
  | nil =>
    intro ds2 h
    cases h
    exact ⟨rfl, fun d hd => absurd hd (List.not_mem_nil d)⟩
  | cons d rest ih =>
    intro ds2 h
    rw [mapME] at h
    split at h
    · cases h
    · next y hy =>
        split at h
        · cases h
        · next ys hys =>
            cases h
            obtain ⟨ih1, ih2⟩ := ih hys
            rw [patchDispatcher] at hy
            by_cases hdid : d.dispatcher_id = did
            · rw [if_pos hdid] at hy
              by_cases hok : updateActorsOk d.downstream_actor_id rm cr = true
              · rw [if_pos hok] at hy
                injection hy with hy2
                subst hy2
                constructor
                · rw [List.map_cons, ih1, c4ExpectedDispatcher, if_pos hdid]
                · intro d2 hd2 hdid2
                  rcases List.mem_cons.mp hd2 with h1 | h1
                  · rw [h1]; exact hok
                  · exact ih2 d2 h1 hdid2
              · rw [if_neg hok] at hy
                cases hy
            · rw [if_neg hdid] at hy
              injection hy with hy2
              subst hy2
              constructor
              · rw [List.map_cons, ih1, c4ExpectedDispatcher, if_neg hdid]
              · intro d2 hd2 hdid2
                rcases List.mem_cons.mp hd2 with h1 | h1
                · exact absurd (h1 ▸ hdid2) hdid
                · exact ih2 d2 h1 hdid2

theorem mapME_patchUpstreamActor {nc : List Nat} {m : Option ActorMapping}
    {did : Nat} {rm cr : List Nat} :
    ∀ {as as2 : List StreamActor},
      mapME (patchUpstreamActor nc m did rm cr) as = Except.ok as2 →
      as2 = as.map (c4ExpectedActor nc m did rm cr) ∧
      ∀ a ∈ as, nc.contains a.actor_id = false →
        ∀ d ∈ a.dispatcher, d.dispatcher_id = did →
          updateActorsOk d.downstream_actor_id rm cr = true := by
  intro as
  induction as with
  | nil =>
    intro as2 h
    cases h
    exact ⟨rfl, fun a ha => absurd ha (List.not_mem_nil a)⟩
  | cons a rest ih =>
    intro as2 h
    rw [mapME] at h
    split at h
    · cases h
    · next y hy =>
        split at h
        · cases h
        · next ys hys =>
            cases h
            obtain ⟨ih1, ih2⟩ := ih hys
            rw [patchUpstreamActor] at hy
            by_cases hin : nc.contains a.actor_id
            · rw [if_pos hin] at hy
              injection hy with hy2
              subst hy2
              constructor
              · rw [List.map_cons, ih1, c4ExpectedActor, if_pos hin]
              · intro a2 ha2 hnc2
                rcases List.mem_cons.mp ha2 with h1 | h1
                · rw [h1] at hnc2
                  rw [hnc2] at hin
                  cases hin
                · exact ih2 a2 h1 hnc2
            · rw [if_neg hin] at hy
              split at hy
              · cases hy
              · next ds hds =>
                  injection hy with hy2
                  subst hy2
                  obtain ⟨hd1, hd2⟩ := mapME_patchDispatcher hds
                  constructor
                  · rw [List.map_cons, ih1, c4ExpectedActor,
                      if_neg hin, hd1]
                  · intro a2 ha2 hnc2
                    rcases List.mem_cons.mp ha2 with h1 | h1
                    · subst h1
                      exact hd2
                    · exact ih2 a2 h1 hnc2

theorem patchUpstreamFragment_spec {nc : List Nat} {m : Option ActorMapping}
    {did : Nat} {rm cr : List Nat} {f f2 : Fragment}
    (h : patchUpstreamFragment nc m did rm cr f = Except.ok f2) :
    f2 = { f with actors := f.actors.map (c4ExpectedActor nc m did rm cr) } ∧
    ∀ a ∈ f.actors, nc.contains a.actor_id = false →
      ∀ d ∈ a.dispatcher, d.dispatcher_id = did →
        updateActorsOk d.downstream_actor_id rm cr = true := by
  rw [patchUpstreamFragment] at h
  split at h
  · cases h
  · next as has =>
      injection h with h2
      subst h2
      obtain ⟨h1, h3⟩ := mapME_patchUpstreamActor has
      exact ⟨by rw [h1], h3⟩

theorem patchUpstreamPairs_spec {nc : List Nat} {m : Option ActorMapping}
    {rm cr : List Nat} :
    ∀ (pairs : List (Nat × Nat)) (frs frs2 : List (Nat × Fragment)),
      (pairs.map (fun pr => pr.1)).Nodup →
      patchUpstreamPairs nc m rm cr pairs frs = Except.ok frs2 →
      (∀ pr ∈ pairs, ∃ f, alget frs pr.1 = some f ∧
        alget frs2 pr.1
          = some { f with actors := f.actors.map (c4ExpectedActor nc m pr.2 rm cr) }) ∧
      (∀ k, k ∉ pairs.map (fun pr => pr.1) → alget frs2 k = alget frs k) := by
  intro pairs
  induction pairs with
  | nil =>
    intro frs frs2 _ h
    cases h
    exact ⟨fun pr hpr => absurd hpr (List.not_mem_nil pr), fun k _ => rfl⟩
  | cons pr rest ih =>
    intro frs frs2 hnd h
    simp only [List.map_cons, List.nodup_cons] at hnd
    rw [patchUpstreamPairs] at h
    split at h
    · cases h
    · next f hf =>
        split at h
        · cases h
        · next f2 hf2 =>
            obtain ⟨ih1, ih2⟩ := ih (alinsert frs pr.1 f2) frs2 hnd.2 h
            obtain ⟨hchar, _⟩ := patchUpstreamFragment_spec hf2
            constructor
            · intro pr2 hpr2
              rcases List.mem_cons.mp hpr2 with h1 | h1
              · subst h1
                refine ⟨f, hf, ?_⟩
                rw [ih2 pr2.1 hnd.1]
                rw [alget_alinsert_self, hchar]
              · obtain ⟨f3, hf3, hf4⟩ := ih1 pr2 h1
                refine ⟨f3, ?_, hf4⟩
                have hne : pr2.1 ≠ pr.1 := by
                  intro he
                  exact hnd.1 (he ▸ List.mem_map_of_mem _ h1)
                rwa [alget_alinsert_ne frs _ hne] at hf3
            · intro k hk
              simp only [List.map_cons, List.mem_cons] at hk
              push_neg at hk
              rw [ih2 k hk.2]
              exact alget_alinsert_ne frs _ hk.1

/-- Claim C4: for each `(upstream_fragment_id, dispatcher_id)` pair of a
plan, every actor of that upstream fragment outside the newly-created
set has each matching dispatcher's hash mapping overwritten with the
plan's mapping and its downstream list updated by subtracting the
removed actors and appending the added ones (with the update_actors
assertions); actors in the newly-created set are untouched, and
fragments named by no pair are unchanged. -/
theorem post_apply_upstream_dispatcher_spec (nc : List Nat)
    (m : Option ActorMapping) (rm cr : List Nat) :
    (∀ (did : Nat) (f f2 : Fragment),
      patchUpstreamFragment nc m did rm cr f = Except.ok f2 →
      f2 = { f with actors := f.actors.map (c4ExpectedActor nc m did rm cr) } ∧
      ∀ a ∈ f.actors, nc.contains a.actor_id = false →
        ∀ d ∈ a.dispatcher, d.dispatcher_id = did →
          updateActorsOk d.downstream_actor_id rm cr = true) ∧
    (∀ (did : Nat) (a : StreamActor), nc.contains a.actor_id = true →
      c4ExpectedActor nc m did rm cr a = a) ∧
    (∀ (pairs : List (Nat × Nat)) (frs frs2 : List (Nat × Fragment)),
      (pairs.map (fun pr => pr.1)).Nodup →
      patchUpstreamPairs nc m rm cr pairs frs = Except.ok frs2 →
      (∀ pr ∈ pairs, ∃ f, alget frs pr.1 = some f ∧
        alget frs2 pr.1
          = some { f with
              actors := f.actors.map (c4ExpectedActor nc m pr.2 rm cr) }) ∧
      (∀ k, k ∉ pairs.map (fun pr => pr.1) → alget frs2 k = alget frs k)) := by
  refine ⟨?_, ?_, ?_⟩
  · intro did f f2 h
    exact patchUpstreamFragment_spec h
  · intro did a h
    rw [c4ExpectedActor, if_pos h]
  · intro pairs frs frs2 hnd h
    exact patchUpstreamPairs_spec pairs frs frs2 hnd h

/-! ## Claim C3: vnode recomputation and notifications -/

theorem patchUpstreamPairs_vnode {nc : List Nat} {m : Option ActorMapping}
    {rm cr : List Nat} :
    ∀ (pairs : List (Nat × Nat)) (frs frs2 : List (Nat × Fragment)),
      patchUpstreamPairs nc m rm cr pairs frs = Except.ok frs2 →
      ∀ k, (alget frs2 k).map Fragment.vnode_mapping
        = (alget frs k).map Fragment.vnode_mapping := by
  intro pairs
  induction pairs with
  | nil =>
    intro frs frs2 h k
    cases h
    rfl
  | cons pr rest ih =>
    intro frs frs2 h k
    rw [patchUpstreamPairs] at h
    split at h
    · cases h
    · next f hf =>
        split at h
        · cases h
        · next f2 hf2 =>
            rw [ih _ _ h k]
            obtain ⟨hchar, _⟩ := patchUpstreamFragment_spec hf2
            by_cases hk : k = pr.1
            · subst hk
              rw [alget_alinsert_self, hf, hchar]
              rfl
            · rw [alget_alinsert_ne frs _ hk]

theorem patchDownstream_vnode {nc : List Nat} {fid : Nat} {rm cr : List Nat}
    {dfid : Nat} {frs frs2 : List (Nat × Fragment)}
    (h : patchDownstream nc fid rm cr dfid frs = Except.ok frs2) :
    ∀ k, (alget frs2 k).map Fragment.vnode_mapping
      = (alget frs k).map Fragment.vnode_mapping := by
  intro k
  rw [patchDownstream] at h
  split at h
  · cases h
  · next f hf =>
      split at h
      · cases h
      · next as has =>
          injection h with h2
          subst h2
          by_cases hk : k = dfid
          · subst hk
            rw [alget_alinsert_self, hf]
            rfl
          · rw [alget_alinsert_ne frs _ hk]

theorem apply_reschedule_vnode_spec
    (nc : List Nat) (fid : Nat) (r : Reschedule) (tf tf2 : TableFragments)
    (notif : List ParallelUnitMapping) (f : Fragment)
    (vm : ParallelUnitMapping) (am : ActorMapping)
    (status1 : List (Nat × ActorStatus))
    (h : applyReschedule nc fid r tf = Except.ok (tf2, notif))
    (hs1 : setAddedRunning r.added_actors tf.actor_status = Except.ok status1)
    (hf : alget tf.fragments fid = some f)
    (hvm : f.vnode_mapping = some vm)
    (ham : r.upstream_dispatcher_mapping = some am) :
    (∃ f3, alget tf2.fragments fid = some f3 ∧
      f3.vnode_mapping = some (actor_mapping_to_parallel_unit_mapping fid
        (actorToPu (rescheduledActors r f) (removeKeys r.removed_actors status1))
        am)) ∧
    notif = (if f.state_table_ids.isEmpty then []
      else [{ actor_mapping_to_parallel_unit_mapping fid
        (actorToPu (rescheduledActors r f) (removeKeys r.removed_actors status1))
        am with fragment_id := f.fragment_id }]) := by
  simp only [applyReschedule, hs1, hf, hvm, ham] at h
  split at h
  · cases h
  · next fragments2 hp =>
      split at h
      · cases h
      · next fragments3 hd =>
          injection h with h2
          injection h2 with h3 h4
          constructor
          · have hpres : (alget fragments3 fid).map Fragment.vnode_mapping
                = (alget (alinsert tf.fragments fid
                    { f with
                      actors := rescheduledActors r f
                      vnode_mapping := some (actor_mapping_to_parallel_unit_mapping
                        fid (actorToPu (rescheduledActors r f)
                          (removeKeys r.removed_actors status1)) am) })
                    fid).map Fragment.vnode_mapping := by
              rw [← patchUpstreamPairs_vnode _ _ _ hp fid]
              cases hdf : r.downstream_fragment_ids with
              | none =>
                rw [hdf] at hd
                injection hd with hd2
                rw [hd2]
              | some dfid =>
                rw [hdf] at hd
                rw [patchDownstream_vnode hd fid]
            rw [alget_alinsert_self] at hpres
            simp only [Option.map] at hpres
            cases hval : alget fragments3 fid with
            | none => rw [hval] at hpres; cases hpres
            | some f3 =>
              rw [hval] at hpres
              simp only [Option.map] at hpres
              injection hpres with hpres2
              rw [← h3]
              exact ⟨f3, hval, hpres2⟩
          · rw [← h4]

/-- Claim C3: in a successful application of a plan to a fragment that
has a vnode mapping, when the plan carries an upstream dispatcher
mapping the fragment's new vnode mapping is the composition of that
mapping with the actor → parallel-unit map built from the post-update
actors and statuses; a stateful fragment queues exactly one notification
carrying that mapping with its fragment id, a stateless one queues none;
and a successful `post_apply_reschedules` emits, after the commit,
exactly the queued mappings as Update notifications. -/
theorem post_apply_vnode_notification_spec :
    (∀ (nc : List Nat) (fid : Nat) (r : Reschedule) (tf tf2 : TableFragments)
      (notif : List ParallelUnitMapping) (f : Fragment)
      (vm : ParallelUnitMapping) (am : ActorMapping)
      (status1 : List (Nat × ActorStatus)),
      applyReschedule nc fid r tf = Except.ok (tf2, notif) →
      setAddedRunning r.added_actors tf.actor_status = Except.ok status1 →
      alget tf.fragments fid = some f →
      f.vnode_mapping = some vm →
      r.upstream_dispatcher_mapping = some am →
      (∃ f3, alget tf2.fragments fid = some f3 ∧
        f3.vnode_mapping = some (actor_mapping_to_parallel_unit_mapping fid
          (actorToPu (rescheduledActors r f)
            (removeKeys r.removed_actors status1)) am)) ∧
      notif = (if f.state_table_ids.isEmpty then []
        else [{ actor_mapping_to_parallel_unit_mapping fid
          (actorToPu (rescheduledActors r f)
            (removeKeys r.removed_actors status1)) am
            with fragment_id := f.fragment_id }])) ∧
    (∀ (resch : List (Nat × Reschedule)) (st : FMap) (st2 : FMap)
      (ns : List Notif),
      postApplyReschedules resch st true = (st2, Except.ok ns) →
      ∃ tq, postApplyTables (resch.flatMap (fun pr => pr.2.added_actors))
          ((st.filter (fun p =>
            p.2.fragments.any (fun q => alHasKey resch q.1))).map
              (fun p => p.2.table_id)) resch (Txn.new st)
          = Except.ok tq ∧
        tq.2.1 = [] ∧
        ns = tq.2.2.map (fun mp => ⟨Operation.update, mp⟩)) := by
  constructor
  · intro nc fid r tf tf2 notif f vm am status1 h hs1 hf hvm ham
    exact apply_reschedule_vnode_spec nc fid r tf tf2 notif f vm am status1
      h hs1 hf hvm ham
  · intro resch st st2 ns h
    rw [postApplyReschedules] at h
    cases hq : postApplyTables (resch.flatMap (fun pr => pr.2.added_actors))
        ((st.filter (fun p =>
          p.2.fragments.any (fun q => alHasKey resch q.1))).map
            (fun p => p.2.table_id)) resch (Txn.new st) with
    | error e => rw [hq] at h; simp at h
    | ok tq =>
      rw [hq] at h
      have h2 : (if (! tq.2.1.isEmpty) = true then
            (st, Except.error MetaErr.panicked)
          else
            match tq.1.commit true with
            | Except.error e => (tq.1.tree, Except.error e)
            | Except.ok st3 =>
              (st3, Except.ok (tq.2.2.map (fun m => ⟨Operation.update, m⟩))))
          = (st2, Except.ok ns) := h
      cases hrem : tq.2.1 with
      | cons a l =>
        rw [hrem] at h2
        simp at h2
      | nil =>
        rw [hrem] at h2
        simp only [List.isEmpty_nil, Bool.not_true, if_neg, Txn.commit,
          if_pos, Prod.mk.injEq, Except.ok.injEq] at h2
        refine ⟨tq, rfl, hrem, ?_⟩
        simp at h2
        exact h2.2.symm

theorem post_apply_vnode_notification_spec_witness :
    (applyReschedule [] 5 witC3r witC3tf = Except.ok (witC3tf2, [witC3vm2]) ∧
      setAddedRunning witC3r.added_actors witC3tf.actor_status
        = Except.ok [(10, witC3st10)] ∧
      alget witC3tf.fragments 5 = some witC3f ∧
      witC3f.vnode_mapping = some witC3vm ∧
      witC3r.upstream_dispatcher_mapping = some witC3am ∧
      postApplyReschedules [(5, witC3r)] [(1, witC3tf)] true
        = ([(1, witC3tf2)], Except.ok [⟨Operation.update, witC3vm2⟩])) ∧
    ((∃ f3, alget witC3tf2.fragments 5 = some f3 ∧
        f3.vnode_mapping = some (actor_mapping_to_parallel_unit_mapping 5
          (actorToPu (rescheduledActors witC3r witC3f)
            (removeKeys witC3r.removed_actors [(10, witC3st10)])) witC3am)) ∧
      [witC3vm2] = (if witC3f.state_table_ids.isEmpty then []
        else [{ actor_mapping_to_parallel_unit_mapping 5
          (actorToPu (rescheduledActors witC3r witC3f)
            (removeKeys witC3r.removed_actors [(10, witC3st10)])) witC3am
            with fragment_id := witC3f.fragment_id }])) ∧
    (∃ tq, postApplyTables
        ([(5, witC3r)].flatMap (fun pr => pr.2.added_actors))
        (([(1, witC3tf)].filter (fun p =>
          p.2.fragments.any (fun q => alHasKey [(5, witC3r)] q.1))).map
            (fun p => p.2.table_id)) [(5, witC3r)] (Txn.new [(1, witC3tf)])
        = Except.ok tq ∧
      tq.2.1 = [] ∧
      [(⟨Operation.update, witC3vm2⟩ : Notif)]
        = tq.2.2.map (fun mp => ⟨Operation.update, mp⟩)) :=
  ⟨⟨rfl, rfl, rfl, rfl, rfl, rfl⟩,
   post_apply_vnode_notification_spec.1 [] 5 witC3r witC3tf witC3tf2 [witC3vm2]
     witC3f witC3vm witC3am [(10, witC3st10)] rfl rfl rfl rfl rfl,
   post_apply_vnode_notification_spec.2 [(5, witC3r)] [(1, witC3tf)]
     [(1, witC3tf2)] [⟨Operation.update, witC3vm2⟩] rfl⟩

theorem post_apply_upstream_dispatcher_spec_witness :
    (patchUpstreamFragment [3] (some witC4am) 7 [] [3] witC4f5
        = Except.ok witC4f5b ∧
      ([3] : List Nat).contains witC4a3.actor_id = true ∧
      ([((5 : Nat), (7 : Nat))].map (fun pr => pr.1)).Nodup ∧
      patchUpstreamPairs [3] (some witC4am) [] [3] [(5, 7)] witC4frs
        = Except.ok witC4frs2) ∧
    (witC4f5b = { witC4f5 with
        actors := witC4f5.actors.map
          (c4ExpectedActor [3] (some witC4am) 7 [] [3]) } ∧
      ∀ a ∈ witC4f5.actors, ([3] : List Nat).contains a.actor_id = false →
        ∀ d ∈ a.dispatcher, d.dispatcher_id = 7 →
          updateActorsOk d.downstream_actor_id [] [3] = true) ∧
    c4ExpectedActor [3] (some witC4am) 7 [] [3] witC4a3 = witC4a3 ∧
    ((∀ pr ∈ [((5 : Nat), (7 : Nat))], ∃ f, alget witC4frs pr.1 = some f ∧
        alget witC4frs2 pr.1 = some { f with
          actors := f.actors.map
            (c4ExpectedActor [3] (some witC4am) pr.2 [] [3]) }) ∧
      (∀ k, k ∉ [((5 : Nat), (7 : Nat))].map (fun pr => pr.1) →
        alget witC4frs2 k = alget witC4frs k)) :=
  ⟨⟨rfl, rfl, by decide, rfl⟩,
   (post_apply_upstream_dispatcher_spec [3] (some witC4am) [] [3]).1
     7 witC4f5 witC4f5b rfl,
   (post_apply_upstream_dispatcher_spec [3] (some witC4am) [] [3]).2.1
     7 witC4a3 rfl,
   (post_apply_upstream_dispatcher_spec [3] (some witC4am) [] [3]).2.2
     [(5, 7)] witC4frs witC4frs2 (by decide) rfl⟩

end FragmentSpec
